import Mathlib

/-!
Verification of the html2gemini renderer (Go) against its natural-language
specification, via a shallow embedding in Lean 4.

The repository contains two near-identical module variants of the renderer:

* variant 1, `src/html2gemini.go`: the citation accumulator is a package-global
  variable (`linkAccumulator`); list items and paragraphs have no peek-ahead.
* variant 2, embedded in `src/README.md` after the first document separator:
  the accumulator is a field of the traversal context, list items and
  paragraphs use a peek-ahead scratch render, and citation URLs have their
  spaces percent-encoded.

Both variants are embedded below.  Mutable state is threaded explicitly: the
traversal context (and, for variant 1, the package-global accumulator) become
explicit values passed through and returned from each function.  Machine `int`
values that can be negative (`flushedToIndex` starts at -1) are modelled as
`Int`; counters that stay non-negative are `Nat`.  In-memory buffer writes
never fail in Go (`bytes.Buffer`), so the embedding is pure; the one partial
operation (`url[0:1]` on a possibly-empty string) is modelled separately with
an `Option` (see `addGeminiCitationChecked`).
-/

namespace HtmlToGemini

/-- Go `unicode.IsSpace`: the Unicode White_Space property
(as tested on code points; Go's table for Latin-1 plus the White_Space ranges). -/
def goIsSpace (c : Char) : Bool :=
  let n := c.toNat
  n = 9 || n = 10 || n = 11 || n = 12 || n = 13 || n = 32 ||
  n = 0x85 || n = 0xA0 || n = 0x1680 ||
  (0x2000 ≤ n && n ≤ 0x200A) ||
  n = 0x2028 || n = 0x2029 || n = 0x202F || n = 0x205F || n = 0x3000

/-- Go `punctNoSpaceBefore` (src/html2gemini.go): characters in front of which
no separating space is inserted. -/
def punctNoSpaceBefore (r : Char) : Bool :=
  r = '.' || r = ',' || r = ';' || r = '!' || r = '?' || r = ')' || r = ']' || r = '>'

/-- Go `punctNoSpaceAfter` (src/html2gemini.go): characters after which the
emitter behaves as if the buffer ended in a space. -/
def punctNoSpaceAfter (r : Char) : Bool :=
  r = '(' || r = '[' || r = '<'

/-- Length of the maximal prefix satisfying `p`. -/
def countWhile (p : Char → Bool) (l : List Char) : Nat :=
  (l.takeWhile p).length

/-- Generic single left-to-right pass replacing non-overlapping leftmost
matches, as Go's `strings.Replace(s, old, new, -1)` and
`regexp.ReplaceAllString` do for the patterns used by this package.  The
matcher returns the length of a match starting at the current position
(all matchers below return at least 1, since every pattern starts with a
mandatory character).  `fuel` is initialised to the list length; because every
match consumes at least one character, fuel never runs out on a real scan, so
the fuel-0 branch is unreachable from `replaceAll`. -/
def scanRepl (m : List Char → Option Nat) (repl : List Char) : Nat → List Char → List Char
  | 0, l => l
  | _ + 1, [] => []
  | fuel + 1, c :: rest =>
    match m (c :: rest) with
    | some n => repl ++ scanRepl m repl fuel ((c :: rest).drop n)
    | none => c :: scanRepl m repl fuel rest

def replaceAllList (m : List Char → Option Nat) (repl : List Char) (l : List Char) : List Char :=
  scanRepl m repl l.length l

def replaceAll (m : List Char → Option Nat) (repl : String) (s : String) : String :=
  String.mk (replaceAllList m repl.data s.data)

/-- Matcher for the literal `"\n "` (Go `strings.Replace(s, "\n ", "\n", -1)`
in `FromHTMLNode`). -/
def mNlSpace : List Char → Option Nat
  | '\n' :: ' ' :: _ => some 2
  | _ => none

/-- Matcher for the regexp `\n\n+` (Go `newlineRe`): a maximal run of at least
two newlines. -/
def mNlRun : List Char → Option Nat
  | '\n' :: '\n' :: rest => some (2 + countWhile (fun c => c = '\n') rest)
  | _ => none

/-- Character class of the regexp `[ \r\n\t]` (Go `spacingRe`). -/
def isSpacingChar (c : Char) : Bool :=
  c = ' ' || c = '\r' || c = '\n' || c = '\t'

/-- Matcher for the regexp `[ \r\n\t]+` (Go `spacingRe`): a maximal run of
spacing characters. -/
def mSpacing : List Char → Option Nat
  | c :: rest => if isSpacingChar c then some (1 + countWhile isSpacingChar rest) else none
  | [] => none

/-- Matcher for the literal `"  "` (Go `strings.ReplaceAll(altText, "  ", " ")`). -/
def mTwoSpaces : List Char → Option Nat
  | ' ' :: ' ' :: _ => some 2
  | _ => none

/-- Matcher for the regexp `\n *\n+> \n` (Go `startQuote` in the second module
variant).  The quantified classes are pairwise distinct from their successors,
so maximal munch coincides with the RE2 leftmost match. -/
def mStartQuote : List Char → Option Nat
  | '\n' :: rest =>
    let k := countWhile (fun c => c = ' ') rest
    let r2 := rest.drop k
    let nl := countWhile (fun c => c = '\n') r2
    if 1 ≤ nl ∧ (r2.drop nl).take 3 = ['>', ' ', '\n'] then some (1 + k + nl + 3) else none
  | _ => none

/-- Matcher for the regexp `\n> \n\n+` (Go `endQuote` in the second module
variant). -/
def mEndQuote : List Char → Option Nat
  | '\n' :: '>' :: ' ' :: '\n' :: rest =>
    let nl := countWhile (fun c => c = '\n') rest
    if 1 ≤ nl then some (4 + nl) else none
  | _ => none

/-- Go `strings.TrimSpace` on a character list (drop `unicode.IsSpace`
characters from both ends). -/
def goTrimSpaceList (l : List Char) : List Char :=
  ((l.dropWhile goIsSpace).reverse.dropWhile goIsSpace).reverse

/-- Go `strings.TrimSpace`. -/
def goTrimSpace (s : String) : String :=
  String.mk (goTrimSpaceList s.data)

/-- Go `strings.TrimSuffix` (character-level: both arguments of every call in
this package are ASCII-safe). -/
def goTrimSuffix (s suf : String) : String :=
  if suf.data.isSuffixOf s.data then String.mk (s.data.take (s.data.length - suf.data.length))
  else s

/-- Go `strings.Repeat` for the blockquote markers. -/
def goRepeat (s : String) (n : Nat) : String :=
  String.mk (List.flatten (List.replicate n s.data))

/-- Go `filepath.Base` (Unix separator): last element of the path after
removing trailing slashes; "." for the empty path, "/" if only separators. -/
def filepathBase (path : String) : String :=
  if path = "" then "."
  else
    let cs := (path.data.reverse.dropWhile (fun c => c = '/')).reverse
    if cs.isEmpty then "/"
    else String.mk (cs.reverse.takeWhile (fun c => c ≠ '/')).reverse

/-- Go `filepath.Ext`: the suffix of the final element starting at its last
dot, or "" when the final element has no dot. -/
def filepathExt (path : String) : String :=
  let seg := path.data.reverse.takeWhile (fun c => c ≠ '/')
  let upto := seg.takeWhile (fun c => c ≠ '.')
  if upto.length = seg.length then "" else String.mk ('.' :: upto.reverse)

/-! ## Data model -/

/-- Go `Options` (both variants; variant 1 has no
`ListItemToLinkWordThreshold` field and ignores that value).  Field defaults
are the Go zero values.  The Go field names `ImageMarkerPrefix` and
`EmptyLinkPrefix` are rendered here as `imageMarker` and `emptyLinkMarker`.
The external `tablewriter` configuration (`PrettyTablesOptions`) is not
modelled: it only parameterises the external grid-layout library, which is
abstracted below as `tablewriterRender`. -/
structure Options where
  prettyTables : Bool := false
  omitLinks : Bool := false
  citationStart : Int := 0
  citationMarkers : Bool := false
  linkEmitFrequency : Int := 0
  numberedLinks : Bool := false
  emitImagesAsLinks : Bool := false
  imageMarker : String := ""
  emptyLinkMarker : String := ""
  listItemToLinkWordThreshold : Int := 0
deriving DecidableEq

/-- Go `NewOptions` defaults (second module variant, which also sets the word
threshold; variant 1's `NewOptions` is identical minus that field). -/
def newOptions : Options :=
  { prettyTables := false
    omitLinks := false
    citationStart := 1
    citationMarkers := true
    numberedLinks := true
    linkEmitFrequency := 2
    emitImagesAsLinks := true
    imageMarker := "‡"
    emptyLinkMarker := ">>"
    listItemToLinkWordThreshold := 30 }

/-- Go `citationLink`. -/
structure CitationLink where
  index : Int
  url : String
  display : String
deriving DecidableEq

/-- Go `linkAccumulatorType`.  Field defaults are the Go zero values (note:
the zero value of `flushedToIndex` is 0; only `newLinkAccumulator` sets it to
-1). -/
structure LinkAccumulator where
  emitParaCount : Int := 0
  linkArray : List CitationLink := []
  flushedToIndex : Int := 0
  tableNestLevel : Int := 0
deriving DecidableEq

/-- Go `newLinkAccumulator` (this is the initial value of the package-global
`linkAccumulator` in variant 1, and of the context field set by
`NewTraverseContext` in variant 2). -/
def newLinkAccumulator : LinkAccumulator :=
  { flushedToIndex := -1 }

/-- Go `tableTraverseContext`.  Defaults are the Go zero values; the method
`init()` resets every field to exactly these values, so `{}` plays both
roles. -/
structure TableTraverseContext where
  header : List String := []
  body : List (List String) := []
  footer : List String := []
  tmpRow : Nat := 0
  isInFooter : Bool := false
deriving DecidableEq

/-- Atoms of `golang.org/x/net/html/atom` distinguished by the renderer.
`other` stands for any element the switch does not name (handled by the
default branch); `footer` and `nav` are named only by variant 2 (variant 1
reaches its default branch for them). -/
inductive HAtom where
  | br | h1 | h2 | h3 | blockquote | div | li | img | a | p | ul
  | table | tfoot | th | tr | td | pre | style | script | head
  | footer | nav | other
deriving DecidableEq

/-- A parsed `*html.Node` as far as the renderer observes it: a text node, an
element node with its atom, attributes and children, or any other node kind
(document, comment, doctype), which `traverse` handles by recursing into its
children. -/
inductive HNode where
  | text (data : String)
  | element (tag : HAtom) (attrs : List (String × String)) (children : List HNode)
  | container (children : List HNode)

/-- Go `textifyTraverseContext` / `TextifyTraverseContext`.  The Go field
`prefix` is rendered `pfx`.  Variant 1 keeps the accumulator in the
package-global `linkAccumulator`; the embedding threads that global through
the context as the `acc` field (variant 2 stores it in the context anyway, as
the field `linkAccumulator`).  Defaults are Go zero values. -/
structure Ctx where
  buf : List Char := []
  pfx : String := ""
  tableCtx : TableTraverseContext := {}
  options : Options
  endsWithSpace : Bool := false
  justClosedDiv : Bool := false
  blockquoteLevel : Nat := 0
  lineLength : Nat := 0
  isPre : Bool := false
  acc : LinkAccumulator := {}
deriving DecidableEq

/-- The zero-valued `TextifyTraverseContext{}` used by variant 2's peek-ahead
probes (note: its accumulator is the zero value, whose `flushedToIndex` is 0,
not -1, and its options are all zero values). -/
def zeroCtx : Ctx := { options := {} }

/-- Go `getAttrVal`. -/
def getAttrVal (attrs : List (String × String)) (attrName : String) : String :=
  match attrs.find? (fun kv => kv.fst = attrName) with
  | some kv => kv.snd
  | none => ""

/-- Go `normalizeHrefLink`: trim space, strip a leading `mailto:`
(`strings.TrimPrefix`; `mailto:` is 7 ASCII characters). -/
def normalizeHrefLink (link : String) : String :=
  let l := goTrimSpace link
  if ("mailto:").data.isPrefixOf l.data then String.mk (l.data.drop 7) else l

/-- Go `formatGeminiCitation`: `fmt.Sprintf("[%d]", idx)` when markers are
shown, else the empty string. -/
def formatGeminiCitation (idx : Int) (showMarker : Bool) : String :=
  if showMarker then "[" ++ toString idx ++ "]" else ""

/-- The alt-text computation of the `atom.Img` case (identical in both
variants): the `alt` attribute, else the base name of `src` without its
extension; bracketed with the image marker; underscores and hyphens replaced
by spaces; double spaces collapsed once. -/
def imageAltText (opts : Options) (attrs : List (String × String)) : String :=
  let altText :=
    if getAttrVal attrs "alt" ≠ "" then getAttrVal attrs "alt"
    else
      let src := getAttrVal attrs "src"
      if src ≠ "" then
        let fileName := filepathBase src
        goTrimSuffix fileName (filepathExt fileName)
      else ""
  let altText := "[" ++ opts.imageMarker ++ " " ++ altText ++ "]"
  let altText := String.mk (altText.data.map (fun c => if c = '_' then ' ' else c))
  let altText := String.mk (altText.data.map (fun c => if c = '-' then ' ' else c))
  replaceAll mTwoSpaces " " altText

/-! ## The emitter -/

def maxLineLen : Nat := 74

/-- The backward scan of Go `breakLongLines`:
`for i >= 0 && !unicode.IsSpace(runes[i]) { i-- }`, returning `none` for
Go's `i == -1`.  Out-of-range indices (unreachable from the caller) read as a
non-space character. -/
def backScanSpace (runes : List Char) : Nat → Option Nat
  | 0 => if goIsSpace (runes.getD 0 'x') then some 0 else none
  | i + 1 => if goIsSpace (runes.getD (i + 1) 'x') then some (i + 1) else backScanSpace runes i

/-- The forward scans of Go `breakLongLines`:
`for i < l && !p(runes[i]) { i++ }` returns the first index at or after `i`
whose character satisfies `p`, or the length. -/
def fwdScanStop (p : Char → Bool) (runes : List Char) (i : Nat) : Nat :=
  i + countWhile (fun c => !(p c)) (runes.drop i)

/-- The loop of Go `breakLongLines`.  `fuel` is initialised to the rune count;
every iteration drops at least one rune (the split point is at least 1, or the
skipped space run is non-empty), so fuel never runs out on the reachable
inputs (`existing < maxLineLen`, as ensured by `breakLongLines`). -/
def blLoop : Nat → List Char → Nat → List String
  | 0, runes, _ => if runes.isEmpty then [] else [String.mk runes]
  | fuel + 1, runes, existing =>
    if runes.length + existing ≤ maxLineLen then
      if runes.isEmpty then [] else [String.mk runes]
    else
      let start := maxLineLen - existing
      let i1 :=
        match backScanSpace runes start with
        | some i => i
        | none => fwdScanStop goIsSpace runes start
      let chunk := String.mk (runes.take i1) ++ "\n"
      let k := fwdScanStop (fun c => !goIsSpace c) runes i1
      chunk :: blLoop fuel (runes.drop k) 0

/-- Go `breakLongLines` (variant 1 only; variant 2's `emit` does not break
lines). -/
def breakLongLines (ctx : Ctx) (data : String) : List String :=
  if ctx.blockquoteLevel = 0 then [data]
  else
    let runes := data.data
    if ctx.lineLength ≥ maxLineLen then "\n" :: blLoop runes.length runes 0
    else blLoop runes.length runes ctx.lineLength

/-- The character-writing loop of Go `emit`: append each rune, track the line
length, and after each newline write the current line-prefix (blockquote
marker) if set. -/
def writeRunes (ctx : Ctx) : List Char → Ctx
  | [] => ctx
  | c :: cs =>
    let ctx1 := { ctx with buf := ctx.buf ++ [c], lineLength := ctx.lineLength + 1 }
    let ctx2 :=
      if c = '\n' then
        { ctx1 with lineLength := 0,
                    buf := ctx1.buf ++ (if ctx1.pfx ≠ "" then ctx1.pfx.data else []) }
      else ctx1
    writeRunes ctx2 cs

/-- The per-line body of Go `emit`: optional separating space, update of the
ends-with-space flag from the line's last rune, then the write loop.  Go
indexes `runes[0]`, so an empty line is returned unchanged (the callers only
pass non-empty lines). -/
def emitLine (ctx : Ctx) (line : String) : Ctx :=
  match line.data with
  | [] => ctx
  | r0 :: rest =>
    let startsWithSpace := goIsSpace r0 || punctNoSpaceBefore r0
    let ctx1 :=
      if !startsWithSpace && !ctx.endsWithSpace then
        { ctx with buf := ctx.buf ++ [' '], lineLength := ctx.lineLength + 1 }
      else ctx
    let lastC := (r0 :: rest).getLastD 'x'
    let ctx2 := { ctx1 with endsWithSpace := goIsSpace lastC || punctNoSpaceAfter lastC }
    writeRunes ctx2 (r0 :: rest)

/-- Go `emit` of variant 1 (src/html2gemini.go lines 575-609): no-op on empty
input, otherwise process each line produced by `breakLongLines`. -/
def emit (ctx : Ctx) (data : String) : Ctx :=
  if data = "" then ctx
  else (breakLongLines ctx data).foldl emitLine ctx

/-- Go `emit` of variant 2: identical except `lines = []string{data}` (no
line breaking). -/
def emit2 (ctx : Ctx) (data : String) : Ctx :=
  if data = "" then ctx else emitLine ctx data

/-! ## The citation accumulator -/

/-- The text of one flushed citation line, without its trailing newline:
`"=> " url " " marker " " display` as written by
`forceFlushGeminiCitations`. -/
def citationLineData (opts : Options) (link : CitationLink) : List Char :=
  ("=> ").data ++ link.url.data ++ [' '] ++
    (formatGeminiCitation link.index opts.numberedLinks).data ++ [' '] ++ link.display.data

/-- The `for i, link := range linkAccumulator.linkArray` loop of
`forceFlushGeminiCitations`: emit the line of every link whose position is
greater than `flushedToIndex`.  `i` is the position of the head of the
remaining list. -/
def flushLoop (opts : Options) (fl : Int) : Nat → List CitationLink → List Char
  | _, [] => []
  | i, link :: rest =>
    (if (i : Int) > fl then citationLineData opts link ++ ['\n'] else []) ++
      flushLoop opts fl (i + 1) rest

/-- Go `ResetCitationCounters` (identical in both variants). -/
def ResetCitationCounters (ctx : Ctx) : Ctx :=
  { ctx with acc := { ctx.acc with
      flushedToIndex := (ctx.acc.linkArray.length : Int) - 1
      emitParaCount := 0 } }

/-- Go `forceFlushGeminiCitations` (identical in both variants): inside a
table subtree it returns immediately; otherwise it writes two newlines, the
lines of all unflushed citations, one trailing newline, and resets the
counters. -/
def forceFlushGeminiCitations (ctx : Ctx) : Ctx :=
  if ctx.acc.tableNestLevel > 0 then ctx
  else
    let buf := ctx.buf ++ ['\n'] ++ ['\n'] ++
      flushLoop ctx.options ctx.acc.flushedToIndex 0 ctx.acc.linkArray ++ ['\n']
    ResetCitationCounters { ctx with buf := buf }

/-- Go `emitGeminiCitations` (identical in both variants).  Note the guard
compares the length with `flushedToIndex` itself, not `flushedToIndex + 1`. -/
def emitGeminiCitations (ctx : Ctx) : Ctx :=
  if (ctx.acc.linkArray.length : Int) > ctx.acc.flushedToIndex then
    forceFlushGeminiCitations ctx
  else ctx

/-- Go `FlushCitations` (identical in both variants). -/
def FlushCitations (ctx : Ctx) : Ctx :=
  emitGeminiCitations ctx

/-- Go `CheckFlushCitations` (identical in both variants): flush when the
paragraph counter already exceeds the frequency and an unflushed citation
exists; otherwise increment the counter. -/
def CheckFlushCitations (ctx : Ctx) : Ctx :=
  if ctx.acc.emitParaCount > ctx.options.linkEmitFrequency ∧
      (ctx.acc.linkArray.length : Int) > ctx.acc.flushedToIndex + 1 then
    FlushCitations ctx
  else
    { ctx with acc := { ctx.acc with emitParaCount := ctx.acc.emitParaCount + 1 } }

/-- The registration body shared by the fragment check (variant 1): build the
citation with index `len(linkArray) + CitationStart`, append it, return the
formatted marker. -/
def mkRegisteredCitation (opts : Options) (acc : LinkAccumulator) (url display : String) :
    String × LinkAccumulator :=
  let citation : CitationLink :=
    { index := (acc.linkArray.length : Int) + opts.citationStart, url := url, display := display }
  (formatGeminiCitation citation.index opts.citationMarkers,
   { acc with linkArray := acc.linkArray ++ [citation] })

/-- Go `addGeminiCitation` of variant 1.  Go tests `url[0:1] == "#"`, which
faults on the empty string; this total model reads the first character when
there is one (the empty-string case, unreachable from the guarded call sites,
falls into the registration branch; the faulting behaviour itself is modelled
by `addGeminiCitationChecked`). -/
def addGeminiCitation (opts : Options) (acc : LinkAccumulator) (url display : String) :
    String × LinkAccumulator :=
  if url.data.head? = some '#' then ("", acc)
  else mkRegisteredCitation opts acc url display

/-- The registration body of variant 2, which additionally percent-encodes
spaces in the URL before appending. -/
def mkRegisteredCitation2 (opts : Options) (acc : LinkAccumulator) (url display : String) :
    String × LinkAccumulator :=
  let citation : CitationLink :=
    { index := (acc.linkArray.length : Int) + opts.citationStart, url := url, display := display }
  let citation :=
    if citation.url.data.contains ' ' then
      { citation with url := String.mk (citation.url.data.foldr
          (fun c out => if c = ' ' then '%' :: '2' :: '0' :: out else c :: out) []) }
    else citation
  (formatGeminiCitation citation.index opts.citationMarkers,
   { acc with linkArray := acc.linkArray ++ [citation] })

/-- Go `addGeminiCitation` of variant 2 (README module variant). -/
def addGeminiCitation2 (opts : Options) (acc : LinkAccumulator) (url display : String) :
    String × LinkAccumulator :=
  if url.data.head? = some '#' then ("", acc)
  else mkRegisteredCitation2 opts acc url display

/-- The faulting behaviour of Go `url[0:1]` made explicit: `none` models the
slice-bounds panic on an empty URL. -/
def addGeminiCitationChecked (opts : Options) (acc : LinkAccumulator) (url display : String) :
    Option (String × LinkAccumulator) :=
  if url.data = [] then none
  else if url.data.head? = some '#' then some ("", acc)
  else some (mkRegisteredCitation opts acc url display)

/-- Variant-2 counterpart of `addGeminiCitationChecked`. -/
def addGeminiCitation2Checked (opts : Options) (acc : LinkAccumulator) (url display : String) :
    Option (String × LinkAccumulator) :=
  if url.data = [] then none
  else if url.data.head? = some '#' then some ("", acc)
  else some (mkRegisteredCitation2 opts acc url display)

/-- The guarded citation call of the `atom.A` case (variant 1, lines 358-365):
only a non-empty `href`, still non-empty after normalization and different
from the link text, reaches `addGeminiCitation`. -/
def anchorCitation (opts : Options) (acc : LinkAccumulator) (hrefAttrVal linkText : String) :
    String × LinkAccumulator :=
  if hrefAttrVal ≠ "" then
    let v := normalizeHrefLink hrefAttrVal
    if ¬opts.omitLinks ∧ v ≠ "" ∧ linkText ≠ v then addGeminiCitation opts acc v linkText
    else ("", acc)
  else ("", acc)

/-- The guarded citation call of the `atom.Img` case (variant 1, lines
327-332). -/
def imageCitation (opts : Options) (acc : LinkAccumulator) (srcAttrVal altText : String) :
    String × LinkAccumulator :=
  if srcAttrVal ≠ "" then
    let v := normalizeHrefLink srcAttrVal
    if ¬opts.omitLinks ∧ v ≠ "" ∧ altText ≠ v then addGeminiCitation opts acc v altText
    else ("", acc)
  else ("", acc)

/-- Variant-2 anchor guard (identical shape, variant-2 registration). -/
def anchorCitation2 (opts : Options) (acc : LinkAccumulator) (hrefAttrVal linkText : String) :
    String × LinkAccumulator :=
  if hrefAttrVal ≠ "" then
    let v := normalizeHrefLink hrefAttrVal
    if ¬opts.omitLinks ∧ v ≠ "" ∧ linkText ≠ v then addGeminiCitation2 opts acc v linkText
    else ("", acc)
  else ("", acc)

/-- Variant-2 image guard. -/
def imageCitation2 (opts : Options) (acc : LinkAccumulator) (srcAttrVal altText : String) :
    String × LinkAccumulator :=
  if srcAttrVal ≠ "" then
    let v := normalizeHrefLink srcAttrVal
    if ¬opts.omitLinks ∧ v ≠ "" ∧ altText ≠ v then addGeminiCitation2 opts acc v altText
    else ("", acc)
  else ("", acc)

/-- `anchorCitation` with the faulting slice made explicit (used to state that
the panic is unreachable from the call site). -/
def anchorCitationChecked (opts : Options) (acc : LinkAccumulator) (hrefAttrVal linkText : String) :
    Option (String × LinkAccumulator) :=
  if hrefAttrVal ≠ "" then
    let v := normalizeHrefLink hrefAttrVal
    if ¬opts.omitLinks ∧ v ≠ "" ∧ linkText ≠ v then addGeminiCitationChecked opts acc v linkText
    else some ("", acc)
  else some ("", acc)

/-- `imageCitation` with the faulting slice made explicit. -/
def imageCitationChecked (opts : Options) (acc : LinkAccumulator) (srcAttrVal altText : String) :
    Option (String × LinkAccumulator) :=
  if srcAttrVal ≠ "" then
    let v := normalizeHrefLink srcAttrVal
    if ¬opts.omitLinks ∧ v ≠ "" ∧ altText ≠ v then addGeminiCitationChecked opts acc v altText
    else some ("", acc)
  else some ("", acc)

/-- Variant-2 checked anchor guard. -/
def anchorCitation2Checked (opts : Options) (acc : LinkAccumulator) (hrefAttrVal linkText : String) :
    Option (String × LinkAccumulator) :=
  if hrefAttrVal ≠ "" then
    let v := normalizeHrefLink hrefAttrVal
    if ¬opts.omitLinks ∧ v ≠ "" ∧ linkText ≠ v then addGeminiCitation2Checked opts acc v linkText
    else some ("", acc)
  else some ("", acc)

/-- Variant-2 checked image guard. -/
def imageCitation2Checked (opts : Options) (acc : LinkAccumulator) (srcAttrVal altText : String) :
    Option (String × LinkAccumulator) :=
  if srcAttrVal ≠ "" then
    let v := normalizeHrefLink srcAttrVal
    if ¬opts.omitLinks ∧ v ≠ "" ∧ altText ≠ v then addGeminiCitation2Checked opts acc v altText
    else some ("", acc)
  else some ("", acc)

/-! ## End-of-render normalization and traversal -/

/-- The final normalization of variant 1's `FromHTMLNode` (lines 137-139):
`strings.TrimSpace(newlineRe.ReplaceAllString(strings.Replace(buf, "\n ", "\n", -1), "\n\n"))`. -/
def normalize1 (buf : List Char) : List Char :=
  goTrimSpaceList (replaceAllList mNlRun "\n\n".data (replaceAllList mNlSpace "\n".data buf))

/-- The final normalization of variant 2's `FromHTMLNode`: variant 1's
normalization followed by the blockquote tidy-up regexps (`startQuote` once,
`endQuote` twice). -/
def normalize2 (buf : List Char) : List Char :=
  let t := normalize1 buf
  let t := replaceAllList mStartQuote "\n\n".data t
  let t := replaceAllList mEndQuote "\n\n".data t
  replaceAllList mEndQuote "\n\n".data t

/-- Stand-in for the external `tablewriter` library's grid rendering (a
third-party dependency, not code of this repository).  None of the verified
claims depends on the grid text, only on the control flow around it, so any
fixed total function of the collected cells serves; here: the cells joined by
newlines. -/
def tablewriterRender (t : TableTraverseContext) : String :=
  String.mk (List.flatten (List.intersperse ['\n']
    ((t.header ++ t.body.flatten ++ t.footer).map String.data)))

/-- Go `body[tmpRow] = append(body[tmpRow], res)`.  Go faults when `tmpRow` is
out of range (a `td` with no enclosing `tr`, which the HTML parser never
produces); `List.set` leaves the list unchanged in that unreachable case. -/
def appendToRow (body : List (List String)) (i : Nat) (s : String) : List (List String) :=
  body.set i ((body.getD i []) ++ [s])

mutual

/-- An upper bound on the traversal's recursion depth: every node and every
child-list suffix counts at least one step.  The entry points pass this as
the step budget of the fueled traversal below. -/
def sizeN : HNode → Nat
  | .text _ => 1
  | .element _ _ cs => 1 + sizeL cs
  | .container cs => 1 + sizeL cs

/-- The companion bound for child lists. -/
def sizeL : List HNode → Nat
  | [] => 1
  | c :: cs => 1 + sizeN c + sizeL cs

end

mutual

/-- Go `traverse` of variant 1: dispatch on the node type. -/
def traverse1 (fuel : Nat) (ctx : Ctx) (n : HNode) : Ctx :=
  match fuel with
  | 0 => ctx
  | fuel + 1 =>
  match n with
  | .text data =>
    let d := if ctx.isPre then data else goTrimSpace (replaceAll mSpacing " " data)
    emit ctx d
  | .container cs => traverseChildren1 fuel ctx cs
  | .element tag attrs cs =>
    let ctx := { ctx with justClosedDiv := false }
    match tag with
    | .br => emit ctx "\n"
    | .h1 =>
      let ctx := FlushCitations ctx
      let ctx := emit ctx ("\n" ++ "# ")
      let ctx := traverseChildren1 fuel ctx cs
      emit ctx "\n"
    | .h2 =>
      let ctx := FlushCitations ctx
      let ctx := emit ctx ("\n" ++ "## ")
      let ctx := traverseChildren1 fuel ctx cs
      emit ctx "\n"
    | .h3 =>
      let ctx := FlushCitations ctx
      let ctx := emit ctx ("\n" ++ "### ")
      let ctx := traverseChildren1 fuel ctx cs
      emit ctx "\n"
    | .blockquote =>
      let ctx := FlushCitations ctx
      let ctx := { ctx with blockquoteLevel := ctx.blockquoteLevel + 1 }
      let ctx := { ctx with pfx := goRepeat ">" ctx.blockquoteLevel ++ " " }
      let ctx := emit ctx "\n"
      let ctx := if ctx.blockquoteLevel = 1 then emit ctx "\n" else ctx
      let ctx := traverseChildren1 fuel ctx cs
      let ctx := { ctx with blockquoteLevel := ctx.blockquoteLevel - 1 }
      let pfx2 := goRepeat ">" ctx.blockquoteLevel ++ (if ctx.blockquoteLevel > 0 then " " else "")
      let ctx := { ctx with pfx := pfx2 }
      emit ctx "\n\n"
    | .div =>
      let ctx := if ctx.lineLength > 0 then emit ctx "\n" else ctx
      let ctx := traverseChildren1 fuel ctx cs
      let ctx := if !ctx.justClosedDiv then emit ctx "\n" else ctx
      { ctx with justClosedDiv := true }
    | .li =>
      let ctx := emit ctx "* "
      let ctx := traverseChildren1 fuel ctx cs
      emit ctx "\n"
    | .img =>
      let altText := imageAltText ctx.options attrs
      if ctx.options.emitImagesAsLinks then
        let ctx := emit ctx altText
        let r := imageCitation ctx.options ctx.acc (getAttrVal attrs "src") altText
        emit { ctx with acc := r.2 } r.1
      else
        emit ctx altText
    | .a =>
      let linkText := match cs with | [.text d] => d | _ => ""
      let ctx := traverseChildren1 fuel ctx cs
      let imgOnly := match cs with | [.element .img _ _] => true | _ => false
      let linkText := if imgOnly then ctx.options.emptyLinkMarker else linkText
      let ctx := if imgOnly then emit ctx (" " ++ linkText) else ctx
      let r := anchorCitation ctx.options ctx.acc (getAttrVal attrs "href") linkText
      emit { ctx with acc := r.2 } r.1
    | .p =>
      let ctx := CheckFlushCitations ctx
      let ctx := emit ctx "\n\n"
      let ctx := traverseChildren1 fuel ctx cs
      emit ctx "\n\n"
    | .ul =>
      let ctx := CheckFlushCitations ctx
      let ctx := emit ctx "\n\n"
      let ctx := traverseChildren1 fuel ctx cs
      emit ctx "\n\n"
    | .table =>
      if ctx.options.prettyTables then
        let ctx := if ctx.acc.tableNestLevel = 0 then emit ctx "\n\n```\n" else emit ctx "\n\n"
        let ctx := { ctx with acc := { ctx.acc with tableNestLevel := ctx.acc.tableNestLevel + 1 } }
        let ctx := { ctx with tableCtx := {} }
        let ctx := traverseChildren1 fuel ctx cs
        let ctx := emit ctx (tablewriterRender ctx.tableCtx)
        let ctx := { ctx with acc := { ctx.acc with tableNestLevel := ctx.acc.tableNestLevel - 1 } }
        if ctx.acc.tableNestLevel = 0 then emit ctx "```\n\n" else emit ctx "\n\n"
      else
        let ctx := emit ctx "\n\n⊞ table ⊞\n\n"
        let ctx := CheckFlushCitations ctx
        let ctx := emit ctx "\n\n"
        let ctx := traverseChildren1 fuel ctx cs
        emit ctx "\n\n"
    | .tfoot =>
      if ctx.options.prettyTables then
        let ctx := { ctx with tableCtx := { ctx.tableCtx with isInFooter := true } }
        let ctx := traverseChildren1 fuel ctx cs
        { ctx with tableCtx := { ctx.tableCtx with isInFooter := false } }
      else
        traverseChildren1 fuel ctx cs
    | .tr =>
      if ctx.options.prettyTables then
        let ctx := { ctx with tableCtx := { ctx.tableCtx with body := ctx.tableCtx.body ++ [[]] } }
        let ctx := traverseChildren1 fuel ctx cs
        { ctx with tableCtx := { ctx.tableCtx with tmpRow := ctx.tableCtx.tmpRow + 1 } }
      else
        let ctx := emit ctx "\n"
        traverseChildren1 fuel ctx cs
    | .th =>
      if ctx.options.prettyTables then
        let r := renderEachChild1 fuel ctx.options ctx.acc cs
        { ctx with acc := r.2,
                   tableCtx := { ctx.tableCtx with header := ctx.tableCtx.header ++ [String.mk r.1] } }
      else
        traverseChildren1 fuel ctx cs
    | .td =>
      if ctx.options.prettyTables then
        let r := renderEachChild1 fuel ctx.options ctx.acc cs
        let ctx := { ctx with acc := r.2 }
        if ctx.tableCtx.isInFooter then
          { ctx with tableCtx := { ctx.tableCtx with footer := ctx.tableCtx.footer ++ [String.mk r.1] } }
        else
          { ctx with tableCtx := { ctx.tableCtx with
              body := appendToRow ctx.tableCtx.body ctx.tableCtx.tmpRow (String.mk r.1) } }
      else
        traverseChildren1 fuel ctx cs
    | .pre =>
      let ctx := emit ctx "```\n"
      let ctx := { ctx with isPre := true }
      let ctx := traverseChildren1 fuel ctx cs
      let ctx := { ctx with isPre := false }
      emit ctx "\n```"
    | .style => ctx
    | .script => ctx
    | .head => ctx
    | .footer => traverseChildren1 fuel ctx cs
    | .nav => traverseChildren1 fuel ctx cs
    | .other => traverseChildren1 fuel ctx cs
termination_by structural fuel

/-- Go `traverseChildren` of variant 1. -/
def traverseChildren1 (fuel : Nat) (ctx : Ctx) (l : List HNode) : Ctx :=
  match fuel with
  | 0 => ctx
  | fuel + 1 =>
  match l with
  | [] => ctx
  | c :: cs => traverseChildren1 fuel (traverse1 fuel ctx c) cs
termination_by structural fuel

/-- Go `renderEachChild` of variant 1: render each direct child through a
fresh `FromHTMLNode` (which shares the package-global accumulator, threaded
here as `acc`), children separated by a single newline. -/
def renderEachChild1 (fuel : Nat) (opts : Options) (acc : LinkAccumulator)
    (l : List HNode) : List Char × LinkAccumulator :=
  match fuel with
  | 0 => ([], acc)
  | fuel + 1 =>
  match l with
  | [] => ([], acc)
  | c :: cs =>
    let ctx0 : Ctx := { options := opts, acc := acc }
    let ctxt := forceFlushGeminiCitations (traverse1 fuel ctx0 c)
    let s := normalize1 ctxt.buf
    let r := renderEachChild1 fuel opts ctxt.acc cs
    (s ++ (if cs.isEmpty then [] else ['\n']) ++ r.1, r.2)
termination_by structural fuel

end

/-- Go `FromHTMLNode` of variant 1 (src/html2gemini.go lines 114-141): build a
fresh traversal context (the package-global accumulator is NOT reset — its
current value enters as `acc` and its final value is returned), traverse,
force-flush remaining citations, and normalize.  The Go variadic default
(options absent: zero options with `CitationStart = 1`) is a caller-side
convention; callers here always pass options. -/
def FromHTMLNode1 (doc : HNode) (options : Options) (acc : LinkAccumulator) :
    String × LinkAccumulator :=
  let ctx : Ctx := { options := options, acc := acc }
  let ctx := traverse1 (sizeN doc) ctx doc
  let ctx := forceFlushGeminiCitations ctx
  (String.mk (normalize1 ctx.buf), ctx.acc)

/-! ## Variant 2 (the README module variant) -/

/-- Split on a single separator character, as Go `strings.Split(s, sep)` for a
one-character separator: the segments between separators, including empty
ones, and including the segment after the last separator (so the empty input
yields one empty segment). -/
def splitOnChar (sep : Char) : List Char → List (List Char)
  | [] => [[]]
  | c :: rest =>
    if c = sep then [] :: splitOnChar sep rest
    else
      match splitOnChar sep rest with
      | s :: ss => (c :: s) :: ss
      | [] => [[c]]

/-- Go `NewTraverseContext` (variant 2): force `CitationStart` to 1, fresh
buffer, fresh accumulator. -/
def NewTraverseContext (options : Options) : Ctx :=
  let options := { options with citationStart := 1 }
  { options := options, acc := newLinkAccumulator }

mutual

/-- Go `traverse` of variant 2 (the `TextifyTraverseContext` methods embedded
in src/README.md). -/
def traverse2 (fuel : Nat) (ctx : Ctx) (n : HNode) : Ctx :=
  match fuel with
  | 0 => ctx
  | fuel + 1 =>
  match n with
  | .text data =>
    let d := if ctx.isPre then data else goTrimSpace (replaceAll mSpacing " " data)
    emit2 ctx d
  | .container cs => traverseChildren2 fuel ctx cs
  | .element tag attrs cs =>
    let ctx := { ctx with justClosedDiv := false }
    match tag with
    | .footer => ctx
    | .nav => ctx
    | .br => emit2 ctx "\n"
    | .h1 =>
      let ctx := FlushCitations ctx
      let ctx := emit2 ctx ("\n\n" ++ "# ")
      let ctx := traverseChildren2 fuel ctx cs
      emit2 ctx "\n\n"
    | .h2 =>
      let ctx := FlushCitations ctx
      let ctx := emit2 ctx ("\n\n" ++ "## ")
      let ctx := traverseChildren2 fuel ctx cs
      emit2 ctx "\n\n"
    | .h3 =>
      let ctx := FlushCitations ctx
      let ctx := emit2 ctx ("\n\n" ++ "### ")
      let ctx := traverseChildren2 fuel ctx cs
      emit2 ctx "\n\n"
    | .blockquote =>
      let ctx := FlushCitations ctx
      let ctx := { ctx with blockquoteLevel := ctx.blockquoteLevel + 1 }
      let ctx := { ctx with pfx := goRepeat ">" ctx.blockquoteLevel ++ " " }
      let ctx := traverseChildren2 fuel ctx cs
      let ctx := { ctx with blockquoteLevel := ctx.blockquoteLevel - 1 }
      let pfx2 := goRepeat ">" ctx.blockquoteLevel ++ (if ctx.blockquoteLevel > 0 then " " else "")
      let ctx := { ctx with pfx := pfx2 }
      emit2 ctx ""
    | .div =>
      let ctx := if ctx.lineLength > 0 then emit2 ctx "\n" else ctx
      let ctx := traverseChildren2 fuel ctx cs
      let ctx := if !ctx.justClosedDiv then emit2 ctx "\n" else ctx
      { ctx with justClosedDiv := true }
    | .li =>
      let testCtx := traverseChildren2 fuel zeroCtx cs
      if ((splitOnChar ' ' testCtx.buf).length : Int) < ctx.options.listItemToLinkWordThreshold ∧
          testCtx.acc.linkArray.length = 1 then
        let url0 := match testCtx.acc.linkArray with | l :: _ => l.url | [] => ""
        emit2 ctx ("=> " ++ url0 ++ " " ++ String.mk testCtx.buf ++ "\n")
      else if testCtx.acc.linkArray.length = 0 then
        emit2 ctx ("* " ++ String.mk testCtx.buf ++ "\n")
      else
        let ctx := emit2 ctx "* "
        let ctx := traverseChildren2 fuel ctx cs
        emit2 ctx "\n"
    | .img =>
      let altText := imageAltText ctx.options attrs
      if ctx.options.emitImagesAsLinks then
        let ctx := emit2 ctx altText
        let r := imageCitation2 ctx.options ctx.acc (getAttrVal attrs "src") altText
        emit2 { ctx with acc := r.2 } r.1
      else
        emit2 ctx altText
    | .a =>
      let linkText := match cs with | [.text d] => d | _ => ""
      let ctx := traverseChildren2 fuel ctx cs
      let imgOnly := match cs with | [.element .img _ _] => true | _ => false
      let linkText := if imgOnly then ctx.options.emptyLinkMarker else linkText
      let ctx := if imgOnly then emit2 ctx (" " ++ linkText) else ctx
      let r := anchorCitation2 ctx.options ctx.acc (getAttrVal attrs "href") linkText
      emit2 { ctx with acc := r.2 } r.1
    | .ul =>
      let ctx := CheckFlushCitations ctx
      let ctx := emit2 ctx "\n\n"
      let ctx := traverseChildren2 fuel ctx cs
      emit2 ctx "\n\n"
    | .p =>
      let testCtx := traverseChildren2 fuel zeroCtx cs
      if ((splitOnChar ' ' testCtx.buf).length : Int) < ctx.options.listItemToLinkWordThreshold ∧
          testCtx.acc.linkArray.length = 1 then
        let url0 := match testCtx.acc.linkArray with | l :: _ => l.url | [] => ""
        emit2 ctx ("=> " ++ url0 ++ " " ++ String.mk testCtx.buf ++ "\n")
      else if testCtx.acc.linkArray.length = 0 then
        emit2 ctx (String.mk testCtx.buf ++ "\n")
      else
        let ctx := CheckFlushCitations ctx
        let ctx := emit2 ctx "\n\n"
        let ctx := traverseChildren2 fuel ctx cs
        emit2 ctx "\n\n"
    | .table =>
      if ctx.options.prettyTables then
        let ctx := if ctx.acc.tableNestLevel = 0 then emit2 ctx "\n\n```\n" else emit2 ctx "\n\n"
        let ctx := { ctx with acc := { ctx.acc with tableNestLevel := ctx.acc.tableNestLevel + 1 } }
        let ctx := { ctx with tableCtx := {} }
        let ctx := traverseChildren2 fuel ctx cs
        let ctx := emit2 ctx (tablewriterRender ctx.tableCtx)
        let ctx := { ctx with acc := { ctx.acc with tableNestLevel := ctx.acc.tableNestLevel - 1 } }
        if ctx.acc.tableNestLevel = 0 then emit2 ctx "```\n\n" else emit2 ctx "\n\n"
      else
        let ctx := emit2 ctx "\n\n⊞ table ⊞\n\n"
        let ctx := CheckFlushCitations ctx
        let ctx := emit2 ctx "\n\n"
        let ctx := traverseChildren2 fuel ctx cs
        emit2 ctx "\n\n"
    | .tfoot =>
      if ctx.options.prettyTables then
        let ctx := { ctx with tableCtx := { ctx.tableCtx with isInFooter := true } }
        let ctx := traverseChildren2 fuel ctx cs
        { ctx with tableCtx := { ctx.tableCtx with isInFooter := false } }
      else
        traverseChildren2 fuel ctx cs
    | .tr =>
      if ctx.options.prettyTables then
        let ctx := { ctx with tableCtx := { ctx.tableCtx with body := ctx.tableCtx.body ++ [[]] } }
        let ctx := traverseChildren2 fuel ctx cs
        { ctx with tableCtx := { ctx.tableCtx with tmpRow := ctx.tableCtx.tmpRow + 1 } }
      else
        let ctx := emit2 ctx "\n"
        traverseChildren2 fuel ctx cs
    | .th =>
      if ctx.options.prettyTables then
        let res := renderEachChild2 fuel ctx cs
        { ctx with tableCtx := { ctx.tableCtx with header := ctx.tableCtx.header ++ [String.mk res] } }
      else
        traverseChildren2 fuel ctx cs
    | .td =>
      if ctx.options.prettyTables then
        let res := renderEachChild2 fuel ctx cs
        if ctx.tableCtx.isInFooter then
          { ctx with tableCtx := { ctx.tableCtx with footer := ctx.tableCtx.footer ++ [String.mk res] } }
        else
          { ctx with tableCtx := { ctx.tableCtx with
              body := appendToRow ctx.tableCtx.body ctx.tableCtx.tmpRow (String.mk res) } }
      else
        traverseChildren2 fuel ctx cs
    | .pre =>
      let ctx := emit2 ctx "\n\n```\n"
      let ctx := { ctx with isPre := true }
      let ctx := traverseChildren2 fuel ctx cs
      let ctx := { ctx with isPre := false }
      emit2 ctx "\n```\n\n"
    | .style => ctx
    | .script => ctx
    | .head => ctx
    | .other => traverseChildren2 fuel ctx cs
termination_by structural fuel

/-- Go `traverseChildren` of variant 2. -/
def traverseChildren2 (fuel : Nat) (ctx : Ctx) (l : List HNode) : Ctx :=
  match fuel with
  | 0 => ctx
  | fuel + 1 =>
  match l with
  | [] => ctx
  | c :: cs => traverseChildren2 fuel (traverse2 fuel ctx c) cs
termination_by structural fuel

/-- Go `renderEachChild` of variant 2: each direct child is rendered through
`FromHTMLNode(c, *ctx)` — the context (including its current buffer and its
accumulator) is passed BY VALUE, so the nested render starts from a copy of
the live context and none of its mutations escape; only the returned string
is kept. -/
def renderEachChild2 (fuel : Nat) (ctx : Ctx) (l : List HNode) : List Char :=
  match fuel with
  | 0 => []
  | fuel + 1 =>
  match l with
  | [] => []
  | c :: cs =>
    let ctxt := forceFlushGeminiCitations (traverse2 fuel ctx c)
    let s := normalize2 ctxt.buf
    s ++ (if cs.isEmpty then [] else ['\n']) ++ renderEachChild2 fuel ctx cs
termination_by structural fuel

end

/-- Go `FromHTMLNode` of variant 2: traverse the given context (received by
value), force-flush, normalize (including the blockquote tidy-up regexps).
The Go function returns only the string; the final context — internal to the
call — is exposed here as the second component so that theorems can speak
about the accumulator state the render ends with. -/
def FromHTMLNode2 (doc : HNode) (ctx : Ctx) : String × Ctx :=
  let ctx := traverse2 (sizeN doc) ctx doc
  let ctx := forceFlushGeminiCitations ctx
  (String.mk (normalize2 ctx.buf), ctx)

/-! ## Concrete documents and output predicates used by the claims -/

/-- The document `<a href="u">L</a>`. -/
def c1doc : HNode := .element .a [("href", "u")] [.text "L"]

/-- The accumulator state `FromHTMLNode1` returns after rendering `c1doc`
once from the initial package-global accumulator. -/
def c1acc : LinkAccumulator :=
  { emitParaCount := 0, linkArray := [{ index := 1, url := "u", display := "L" }],
    flushedToIndex := 0, tableNestLevel := 0 }

/-- The document `<pre>a\n  b</pre>` (an internal newline, the second line
indented by two spaces). -/
def c7doc : HNode := .element .pre [] [.text "a\n  b"]

/-- The document `<pre>a \nb</pre>` (a space immediately before the internal
newline). -/
def c8doc : HNode := .element .pre [] [.text "a \nb"]

/-- The document `<p><a href="x">short</a></p>`. -/
def c2doc : HNode := .element .p [] [.element .a [("href", "x")] [.text "short"]]

/-- Whether `needle` occurs as a contiguous run inside `l`. -/
def containsSeq (needle : List Char) : List Char → Bool
  | [] => needle.isEmpty
  | c :: rest => needle.isPrefixOf (c :: rest) || containsSeq needle rest

/-- Whether the list is free of runs of three or more consecutive newlines. -/
def noTriple : List Char → Bool
  | c1 :: c2 :: c3 :: rest =>
    if c1 = '\n' ∧ c2 = '\n' ∧ c3 = '\n' then false else noTriple (c2 :: c3 :: rest)
  | _ => true

/-- Whether the list neither starts nor ends with a Unicode space character. -/
def listTrimmed (l : List Char) : Bool :=
  (match l.head? with | some c => !goIsSpace c | none => true) &&
  (match l.getLast? with | some c => !goIsSpace c | none => true)

/-! ## Helper lemmas on the emitter -/

theorem writeRunes_acc (l : List Char) : ∀ ctx : Ctx, (writeRunes ctx l).acc = ctx.acc := by
  induction l with
  | nil => intro ctx; rfl
  | cons c cs ih =>
    intro ctx
    simp only [writeRunes]
    rw [ih]
    split <;> rfl

theorem writeRunes_ews (l : List Char) :
    ∀ ctx : Ctx, (writeRunes ctx l).endsWithSpace = ctx.endsWithSpace := by
  induction l with
  | nil => intro ctx; rfl
  | cons c cs ih =>
    intro ctx
    simp only [writeRunes]
    rw [ih]
    split <;> rfl

theorem writeRunes_pfx (l : List Char) : ∀ ctx : Ctx, (writeRunes ctx l).pfx = ctx.pfx := by
  induction l with
  | nil => intro ctx; rfl
  | cons c cs ih =>
    intro ctx
    simp only [writeRunes]
    rw [ih]
    split <;> rfl

theorem writeRunes_buf (l : List Char) :
    ∀ ctx : Ctx, ctx.pfx = "" → (writeRunes ctx l).buf = ctx.buf ++ l := by
  induction l with
  | nil => intro ctx _; simp [writeRunes]
  | cons c cs ih =>
    intro ctx h
    simp only [writeRunes]
    split
    · rw [ih _ (by simpa using h)]
      simp [h]
    · rw [ih _ (by simpa using h)]
      simp

theorem emitLine_acc (ctx : Ctx) (line : String) : (emitLine ctx line).acc = ctx.acc := by
  unfold emitLine
  cases hl : line.data with
  | nil => rfl
  | cons r0 rest =>
    simp only []
    rw [writeRunes_acc]
    split <;> rfl

theorem emit2_acc (ctx : Ctx) (s : String) : (emit2 ctx s).acc = ctx.acc := by
  unfold emit2
  split
  · rfl
  · exact emitLine_acc ctx s

/-! ## Claim C10: the citation registration is never called with an empty URL -/

theorem addGeminiCitationChecked_eq (opts : Options) (acc : LinkAccumulator) (url display : String)
    (h : url ≠ "") :
    addGeminiCitationChecked opts acc url display = some (addGeminiCitation opts acc url display) := by
  have hd : url.data ≠ [] := by
    intro hnil
    apply h
    cases url
    simp_all
  unfold addGeminiCitationChecked addGeminiCitation
  rw [if_neg hd]
  split <;> rfl

theorem addGeminiCitation2Checked_eq (opts : Options) (acc : LinkAccumulator) (url display : String)
    (h : url ≠ "") :
    addGeminiCitation2Checked opts acc url display = some (addGeminiCitation2 opts acc url display) := by
  have hd : url.data ≠ [] := by
    intro hnil
    apply h
    cases url
    simp_all
  unfold addGeminiCitation2Checked addGeminiCitation2
  rw [if_neg hd]
  split <;> rfl

/-- Claim C10: every anchor and image call site of `addGeminiCitation` (in
both module variants) first checks that the attribute value is non-empty and
re-checks non-emptiness after normalization, so the `url[0:1]` slice taken
inside `addGeminiCitation` never faults: the checked model (in which the
empty-URL fault is `none`) coincides with the total registration at every call
site, for all options, accumulator states, attribute values and link texts. -/
theorem c10_no_empty_url_reaches_citation (opts : Options) (acc : LinkAccumulator)
    (hrefAttrVal linkText srcAttrVal altText : String) :
    anchorCitationChecked opts acc hrefAttrVal linkText
        = some (anchorCitation opts acc hrefAttrVal linkText) ∧
      imageCitationChecked opts acc srcAttrVal altText
        = some (imageCitation opts acc srcAttrVal altText) ∧
      anchorCitation2Checked opts acc hrefAttrVal linkText
        = some (anchorCitation2 opts acc hrefAttrVal linkText) ∧
      imageCitation2Checked opts acc srcAttrVal altText
        = some (imageCitation2 opts acc srcAttrVal altText) := by
  refine ⟨?_, ?_, ?_, ?_⟩
  · unfold anchorCitationChecked anchorCitation
    split
    · dsimp only
      split
      · rename_i hguard
        exact addGeminiCitationChecked_eq _ _ _ _ hguard.2.1
      · rfl
    · rfl
  · unfold imageCitationChecked imageCitation
    split
    · dsimp only
      split
      · rename_i hguard
        exact addGeminiCitationChecked_eq _ _ _ _ hguard.2.1
      · rfl
    · rfl
  · unfold anchorCitation2Checked anchorCitation2
    split
    · dsimp only
      split
      · rename_i hguard
        exact addGeminiCitation2Checked_eq _ _ _ _ hguard.2.1
      · rfl
    · rfl
  · unfold imageCitation2Checked imageCitation2
    split
    · dsimp only
      split
      · rename_i hguard
        exact addGeminiCitation2Checked_eq _ _ _ _ hguard.2.1
      · rfl
    · rfl

/-! ## Claim C3: citation registration, indices and fragments -/

/-- Register a sequence of (url, display) pairs through `addGeminiCitation`,
the way one render's successive registrations reach the accumulator. -/
def registerAll (opts : Options) (acc : LinkAccumulator) : List (String × String) → LinkAccumulator
  | [] => acc
  | (u, d) :: rest => registerAll opts (addGeminiCitation opts acc u d).2 rest

/-- The index sequence of an accumulator is exactly `start, start+1, ...`. -/
def indicesAreSequential (opts : Options) (acc : LinkAccumulator) : Prop :=
  acc.linkArray.map (fun c => c.index)
    = (List.range acc.linkArray.length).map (fun k => (k : Int) + opts.citationStart)

theorem addGeminiCitation_keeps_sequential (opts : Options) (acc : LinkAccumulator)
    (u d : String) (h : indicesAreSequential opts acc) :
    indicesAreSequential opts (addGeminiCitation opts acc u d).2 := by
  unfold addGeminiCitation
  split
  · exact h
  · unfold indicesAreSequential at h ⊢
    unfold mkRegisteredCitation
    simp [List.range_succ, h]

theorem addGeminiCitation_no_fragment (opts : Options) (acc : LinkAccumulator)
    (u d : String) (h : ∀ c ∈ acc.linkArray, c.url.data.head? ≠ some '#') :
    ∀ c ∈ (addGeminiCitation opts acc u d).2.linkArray, c.url.data.head? ≠ some '#' := by
  unfold addGeminiCitation
  split
  · exact h
  · rename_i hu
    unfold mkRegisteredCitation
    intro c hc
    simp only [List.mem_append, List.mem_singleton] at hc
    rcases hc with hc | hc
    · exact h c hc
    · subst hc
      exact hu

theorem registerAll_sequential (opts : Options) (pairs : List (String × String)) :
    ∀ acc, indicesAreSequential opts acc →
      indicesAreSequential opts (registerAll opts acc pairs) := by
  induction pairs with
  | nil => intro acc h; exact h
  | cons p rest ih =>
    intro acc h
    exact ih _ (addGeminiCitation_keeps_sequential opts acc p.1 p.2 h)

theorem registerAll_no_fragment (opts : Options) (pairs : List (String × String)) :
    ∀ acc, (∀ c ∈ acc.linkArray, c.url.data.head? ≠ some '#') →
      ∀ c ∈ (registerAll opts acc pairs).linkArray, c.url.data.head? ≠ some '#' := by
  induction pairs with
  | nil => intro acc h; exact h
  | cons p rest ih =>
    intro acc h
    exact ih _ (addGeminiCitation_no_fragment opts acc p.1 p.2 h)

/-- Claim C3: a registration whose URL starts with `#` returns the empty
string and appends nothing; any other registration appends a record whose
index is the current count plus `CitationStart` and returns `[<index>]`
exactly when citation markers are enabled; consequently, registering any
sequence of links from a fresh accumulator yields the index sequence
`start, start+1, start+2, ...` (first index = the configured start,
consecutive indices differing by exactly 1), and no fragment URL is ever
registered. -/
theorem c3_citation_registration :
    (∀ (opts : Options) (acc : LinkAccumulator) (url display : String),
        url.data.head? = some '#' → addGeminiCitation opts acc url display = ("", acc)) ∧
      (∀ (opts : Options) (acc : LinkAccumulator) (url display : String),
        url.data.head? ≠ some '#' →
          (addGeminiCitation opts acc url display).2.linkArray
              = acc.linkArray ++
                [{ index := (acc.linkArray.length : Int) + opts.citationStart,
                   url := url, display := display }] ∧
            (addGeminiCitation opts acc url display).1
              = (if opts.citationMarkers then
                  "[" ++ toString ((acc.linkArray.length : Int) + opts.citationStart) ++ "]"
                 else "")) ∧
      (∀ (opts : Options) (pairs : List (String × String)),
        indicesAreSequential opts (registerAll opts newLinkAccumulator pairs)) ∧
      (∀ (opts : Options) (pairs : List (String × String)),
        ∀ c ∈ (registerAll opts newLinkAccumulator pairs).linkArray,
          c.url.data.head? ≠ some '#') := by
  refine ⟨?_, ?_, ?_, ?_⟩
  · intro opts acc url display h
    unfold addGeminiCitation
    rw [if_pos h]
  · intro opts acc url display h
    unfold addGeminiCitation
    rw [if_neg h]
    unfold mkRegisteredCitation
    unfold formatGeminiCitation
    constructor
    · rfl
    · split <;> rfl
  · intro opts pairs
    exact registerAll_sequential opts pairs newLinkAccumulator (by rfl)
  · intro opts pairs
    exact registerAll_no_fragment opts pairs newLinkAccumulator (by intro c hc; cases hc)

/-- Witness for C3 at concrete inputs: the fragment URL `"#x"` registers
nothing, a plain URL appends index 1 on the default options, and a concrete
mixed sequence ends sequential. -/
theorem c3_citation_registration_witness :
    addGeminiCitation newOptions newLinkAccumulator "#x" "d" = ("", newLinkAccumulator) ∧
      (addGeminiCitation newOptions newLinkAccumulator "u" "d").2.linkArray
        = [{ index := 1, url := "u", display := "d" }] ∧
      indicesAreSequential newOptions
        (registerAll newOptions newLinkAccumulator [("u", "a"), ("#f", "b"), ("v", "c")]) := by
  refine ⟨?_, ?_, ?_⟩
  · exact c3_citation_registration.1 newOptions newLinkAccumulator "#x" "d" (by decide)
  · rw [(c3_citation_registration.2.1 newOptions newLinkAccumulator "u" "d" (by decide)).1]
    decide
  · exact c3_citation_registration.2.2.1 newOptions [("u", "a"), ("#f", "b"), ("v", "c")]

/-! ## Claim C9: the emit contract -/

/-- Claim C9: outside blockquotes (where no line-breaking or line-prefix
rewriting applies), `emit` of the empty string is a no-op; for a non-empty
fragment, exactly one separating space is inserted before it if and only if
its first character is neither whitespace nor a no-space-before punctuation
character and the context does not already end in whitespace, after which the
fragment itself is appended unchanged; and the new ends-with-space flag
records whether the fragment's last character is whitespace or a
no-space-after punctuation character. -/
theorem c9_emit_contract (ctx : Ctx) (data : String)
    (hbq : ctx.blockquoteLevel = 0) (hpfx : ctx.pfx = "") :
    (data = "" → emit ctx data = ctx) ∧
      (∀ r0 rest, data.data = r0 :: rest →
        (emit ctx data).buf
            = ctx.buf ++
              (if !(goIsSpace r0 || punctNoSpaceBefore r0) && !ctx.endsWithSpace then [' ']
               else []) ++ data.data ∧
          (emit ctx data).endsWithSpace
            = (goIsSpace ((r0 :: rest).getLastD 'x') ||
                punctNoSpaceAfter ((r0 :: rest).getLastD 'x'))) := by
  constructor
  · intro h
    unfold emit
    rw [if_pos h]
  · intro r0 rest h
    have hne : data ≠ "" := by
      intro he
      rw [he] at h
      simp at h
    unfold emit
    rw [if_neg hne]
    unfold breakLongLines
    rw [if_pos hbq]
    simp only [List.foldl]
    unfold emitLine
    rw [h]
    dsimp only
    constructor
    · rw [writeRunes_buf _ _ (by split <;> simpa using hpfx)]
      split <;> simp
    · rw [writeRunes_ews]

/-- Witness for C9 at a concrete context and fragment. -/
theorem c9_emit_contract_witness :
    (emit { options := newOptions } "" = { options := newOptions }) ∧
      (emit { options := newOptions } "ab").buf = [' ', 'a', 'b'] := by
  constructor
  · exact (c9_emit_contract { options := newOptions } "" rfl rfl).1 rfl
  · rw [((c9_emit_contract { options := newOptions } "ab" rfl rfl).2 'a' ['b'] rfl).1]
    decide

/-! ## Claim C5: what a flush writes -/

/-- The initial context a variant-1 render starts from: fresh everything
except the threaded package-global accumulator, here at its own fresh
value. -/
def freshCtx (opts : Options) : Ctx :=
  { options := opts, acc := newLinkAccumulator }

theorem flushLoop_empty (opts : Options) (fl : Int) (arr : List CitationLink) :
    ∀ i : Nat, (arr.length : Int) + i ≤ fl + 1 → flushLoop opts fl i arr = [] := by
  induction arr with
  | nil => intro i _; rfl
  | cons link rest ih =>
    intro i h
    simp only [List.length_cons] at h
    unfold flushLoop
    rw [if_neg (by push_cast at h ⊢; omega)]
    rw [ih (i + 1) (by push_cast at h ⊢; omega)]
    rfl

/-- Counterexample to claim C5 as stated: on a fresh context there are no
citations beyond `flushedToIndex`, yet `emitGeminiCitations` (the spec's
`flush()`) writes three newline bytes to the output buffer — it is not a
no-op on the buffer.  (The no-unflushed guard in `emitGeminiCitations`
compares the array length with `flushedToIndex` instead of
`flushedToIndex + 1`, so it never blocks the call.) -/
theorem c5_counterexample :
    (((freshCtx newOptions).acc.linkArray.length : Int)
        ≤ (freshCtx newOptions).acc.flushedToIndex + 1) ∧
      (emitGeminiCitations (freshCtx newOptions)).buf = ['\n', '\n', '\n'] ∧
      (freshCtx newOptions).buf = [] := by
  decide

/-- Claim C5 as amended: while the table nesting depth is positive a flush
writes nothing at all and performs no bookkeeping either; at depth zero, when
there is no citation beyond `flushedToIndex` (in a reachable state, i.e.
`flushedToIndex < length`), the flush writes exactly the three separator
newlines and no citation line, leaves the link array unchanged, and only
performs its cursor bookkeeping. -/
theorem c5_flush_writes (ctx : Ctx) :
    (0 < ctx.acc.tableNestLevel → forceFlushGeminiCitations ctx = ctx) ∧
      (ctx.acc.tableNestLevel = 0 →
        ctx.acc.flushedToIndex < (ctx.acc.linkArray.length : Int) →
        (ctx.acc.linkArray.length : Int) ≤ ctx.acc.flushedToIndex + 1 →
        (emitGeminiCitations ctx).buf = ctx.buf ++ ['\n', '\n', '\n'] ∧
          (emitGeminiCitations ctx).acc.linkArray = ctx.acc.linkArray ∧
          (emitGeminiCitations ctx).acc.flushedToIndex
            = (ctx.acc.linkArray.length : Int) - 1 ∧
          (emitGeminiCitations ctx).acc.emitParaCount = 0) := by
  constructor
  · intro h
    unfold forceFlushGeminiCitations
    rw [if_pos h]
  · intro hnest hlt hle
    unfold emitGeminiCitations
    rw [if_pos hlt]
    unfold forceFlushGeminiCitations
    rw [if_neg (by omega)]
    rw [flushLoop_empty ctx.options ctx.acc.flushedToIndex ctx.acc.linkArray 0 (by omega)]
    refine ⟨by simp [ResetCitationCounters], rfl, rfl, rfl⟩

/-- Witness for C5's amended statement at concrete contexts: a context inside
a table, and a fresh context at depth zero. -/
theorem c5_flush_writes_witness :
    forceFlushGeminiCitations
        { options := newOptions, acc := { newLinkAccumulator with tableNestLevel := 1 } }
      = { options := newOptions, acc := { newLinkAccumulator with tableNestLevel := 1 } } ∧
      (emitGeminiCitations (freshCtx newOptions)).buf = (freshCtx newOptions).buf ++ ['\n', '\n', '\n'] := by
  constructor
  · exact (c5_flush_writes _).1 (by decide)
  · exact ((c5_flush_writes (freshCtx newOptions)).2 (by decide) (by decide) (by decide)).1

/-! ## Claim C6: the paragraph-boundary flush check -/

/-- Counterexample to claim C6 as stated: with the default flush frequency 2,
a context whose paragraph counter is 2 and which holds an unflushed citation
satisfies the claim's trigger condition (the incremented counter, 3, exceeds
the frequency, and a citation beyond `flushedToIndex` exists), yet
`CheckFlushCitations` flushes nothing — it only increments the counter,
because the code tests the counter before incrementing it. -/
theorem c6_counterexample :
    (({ options := newOptions,
        acc := { emitParaCount := 2,
                 linkArray := [{ index := 1, url := "u", display := "d" }],
                 flushedToIndex := -1, tableNestLevel := 0 } } : Ctx).acc.emitParaCount + 1
          > newOptions.linkEmitFrequency) ∧
      CheckFlushCitations
          { options := newOptions,
            acc := { emitParaCount := 2,
                     linkArray := [{ index := 1, url := "u", display := "d" }],
                     flushedToIndex := -1, tableNestLevel := 0 } }
        = { options := newOptions,
            acc := { emitParaCount := 3,
                     linkArray := [{ index := 1, url := "u", display := "d" }],
                     flushedToIndex := -1, tableNestLevel := 0 } } := by
  decide

/-- Claim C6 as amended: `CheckFlushCitations` tests the counter BEFORE
incrementing it.  When the current (not incremented) counter strictly exceeds
the configured frequency and a citation beyond `flushedToIndex` exists, it
flushes: outside tables this writes the pending citation block, resets the
paragraph counter to zero and advances the cursor to the end; inside a table
it does nothing at all.  In every other case it only increments the
paragraph counter. -/
theorem c6_check_flush (ctx : Ctx) :
    ((ctx.acc.emitParaCount > ctx.options.linkEmitFrequency ∧
        (ctx.acc.linkArray.length : Int) > ctx.acc.flushedToIndex + 1) →
      (ctx.acc.tableNestLevel = 0 →
        (CheckFlushCitations ctx).acc.emitParaCount = 0 ∧
          (CheckFlushCitations ctx).acc.flushedToIndex
            = (ctx.acc.linkArray.length : Int) - 1 ∧
          (CheckFlushCitations ctx).buf
            = ctx.buf ++ ['\n'] ++ ['\n'] ++
                flushLoop ctx.options ctx.acc.flushedToIndex 0 ctx.acc.linkArray ++ ['\n']) ∧
        (0 < ctx.acc.tableNestLevel → CheckFlushCitations ctx = ctx)) ∧
      (¬(ctx.acc.emitParaCount > ctx.options.linkEmitFrequency ∧
          (ctx.acc.linkArray.length : Int) > ctx.acc.flushedToIndex + 1) →
        CheckFlushCitations ctx
          = { ctx with acc := { ctx.acc with emitParaCount := ctx.acc.emitParaCount + 1 } }) := by
  constructor
  · intro hcond
    have hguard : (ctx.acc.linkArray.length : Int) > ctx.acc.flushedToIndex := by omega
    constructor
    · intro hnest
      unfold CheckFlushCitations
      rw [if_pos hcond]
      unfold FlushCitations emitGeminiCitations
      rw [if_pos hguard]
      unfold forceFlushGeminiCitations
      rw [if_neg (by omega)]
      refine ⟨by simp [ResetCitationCounters], by simp [ResetCitationCounters], ?_⟩
      simp [ResetCitationCounters]
    · intro hnest
      unfold CheckFlushCitations
      rw [if_pos hcond]
      unfold FlushCitations emitGeminiCitations
      rw [if_pos hguard]
      unfold forceFlushGeminiCitations
      rw [if_pos hnest]
  · intro hcond
    unfold CheckFlushCitations
    rw [if_neg hcond]

/-- Witness for C6's amended statement at concrete contexts: a counter past
the frequency with an unflushed citation flushes and resets; a counter at the
frequency only increments. -/
theorem c6_check_flush_witness :
    (CheckFlushCitations
        { options := newOptions,
          acc := { emitParaCount := 3,
                   linkArray := [{ index := 1, url := "u", display := "d" }],
                   flushedToIndex := -1, tableNestLevel := 0 } }).acc.emitParaCount = 0 ∧
      CheckFlushCitations
          { options := newOptions,
            acc := { emitParaCount := 2,
                     linkArray := [{ index := 1, url := "u", display := "d" }],
                     flushedToIndex := -1, tableNestLevel := 0 } }
        = { options := newOptions,
            acc := { emitParaCount := 3,
                     linkArray := [{ index := 1, url := "u", display := "d" }],
                     flushedToIndex := -1, tableNestLevel := 0 } } := by
  constructor
  · exact (((c6_check_flush _).1 (by decide)).1 (by decide)).1
  · exact (c6_check_flush _).2 (by decide)

/-! ## Claim C4: the citation subsystem over a whole render

The traversal touches the citation accumulator and writes citation lines to
the buffer only through `addGeminiCitation`, `CheckFlushCitations`,
`FlushCitations` (headings, blockquotes), the table nesting counter, and the
final `forceFlushGeminiCitations`.  `AccOp` is the alphabet of these touches;
a full render is some sequence of them followed by the final unconditional
flush.  (The body text the traversal also emits is not part of this model;
the extracted `geminiLines` are the lines the flush machinery itself
writes.) -/

inductive AccOp where
  | register (url display : String)
  | checkFlush
  | flushCitations
  | enterTable
  | exitTable

/-- One touch of the citation subsystem, each through the very function the
code uses. -/
def applyOp (ctx : Ctx) : AccOp → Ctx
  | .register url display =>
    { ctx with acc := (addGeminiCitation ctx.options ctx.acc url display).2 }
  | .checkFlush => CheckFlushCitations ctx
  | .flushCitations => FlushCitations ctx
  | .enterTable => { ctx with acc := { ctx.acc with tableNestLevel := ctx.acc.tableNestLevel + 1 } }
  | .exitTable => { ctx with acc := { ctx.acc with tableNestLevel := ctx.acc.tableNestLevel - 1 } }

def runOps (ctx : Ctx) (ops : List AccOp) : Ctx :=
  ops.foldl applyOp ctx

/-- A register op whose url and display contain no newline (true of every
URL/display a real document produces on one line; a newline inside either
would break the one-line-per-citation output format). -/
def cleanOp : AccOp → Prop
  | .register u d => '\n' ∉ u.data ∧ '\n' ∉ d.data
  | _ => True

/-- A line of the flushed citation block, recognized by its `"=> "` prefix. -/
def isGeminiLine (seg : List Char) : Bool :=
  ("=> ").data.isPrefixOf seg

/-- The citation lines contained in a buffer: the `"=> "`-prefixed lines. -/
def geminiLines (buf : List Char) : List (List Char) :=
  (splitOnChar '\n' buf).filter isGeminiLine

theorem splitOnChar_ne_nil (sep : Char) (l : List Char) : splitOnChar sep l ≠ [] := by
  cases l with
  | nil => simp [splitOnChar]
  | cons c rest =>
    unfold splitOnChar
    split
    · simp
    · rcases h : splitOnChar sep rest with _ | ⟨s, ss⟩ <;> simp

theorem splitOnChar_cons_self (sep : Char) (rest : List Char) :
    splitOnChar sep (sep :: rest) = [] :: splitOnChar sep rest := by
  simp [splitOnChar]

theorem splitOnChar_cons_ne (sep c : Char) (rest : List Char) (h : c ≠ sep) :
    splitOnChar sep (c :: rest)
      = (match splitOnChar sep rest with
         | s :: ss => (c :: s) :: ss
         | [] => [[c]]) := by
  simp [splitOnChar, h]

theorem splitOnChar_append (sep : Char) (r : List Char) :
    ∀ x : List Char, splitOnChar sep (x ++ sep :: r) = splitOnChar sep x ++ splitOnChar sep r := by
  intro x
  induction x with
  | nil => simp [splitOnChar]
  | cons c xs ih =>
    by_cases hc : c = sep
    · subst hc
      rw [List.cons_append, splitOnChar_cons_self, splitOnChar_cons_self, ih]
      rfl
    · rw [List.cons_append, splitOnChar_cons_ne sep c _ hc, splitOnChar_cons_ne sep c _ hc, ih]
      rcases h : splitOnChar sep xs with _ | ⟨s, ss⟩
      · exact absurd h (splitOnChar_ne_nil sep xs)
      · simp [h]

theorem splitOnChar_no_sep (sep : Char) (l : List Char) (h : sep ∉ l) :
    splitOnChar sep l = [l] := by
  induction l with
  | nil => rfl
  | cons c rest ih =>
    unfold splitOnChar
    rw [if_neg (by intro he; exact h (he ▸ List.mem_cons_self c rest))]
    rw [ih (fun hm => h (List.mem_cons_of_mem c hm))]

theorem geminiLines_append_nl (x r : List Char) :
    geminiLines (x ++ '\n' :: r) = geminiLines x ++ geminiLines r := by
  unfold geminiLines
  rw [splitOnChar_append, List.filter_append]

theorem geminiLines_single (l : List Char) (hnl : '\n' ∉ l) (hpre : isGeminiLine l = true) :
    geminiLines l = [l] := by
  unfold geminiLines
  rw [splitOnChar_no_sep _ _ hnl]
  simp [hpre]

theorem digitChar_ne_nl (n : Nat) : Nat.digitChar n ≠ '\n' := by
  by_cases h : n < 16
  · have hall : ∀ m : Fin 16, Nat.digitChar m.val ≠ '\n' := by decide
    exact hall ⟨n, h⟩
  · unfold Nat.digitChar
    repeat rw [if_neg (by omega)]
    decide

theorem toDigitsCore_ne_nl (fuel : Nat) :
    ∀ (n : Nat) (ds : List Char), '\n' ∉ ds → '\n' ∉ Nat.toDigitsCore 10 fuel n ds := by
  induction fuel with
  | zero => intro n ds h; exact h
  | succ fuel ih =>
    intro n ds h
    unfold Nat.toDigitsCore
    have hd : '\n' ∉ Nat.digitChar (n % 10) :: ds := by
      intro hm
      rcases List.mem_cons.mp hm with hm | hm
      · exact digitChar_ne_nl (n % 10) hm.symm
      · exact h hm
    dsimp only
    split
    · exact hd
    · exact ih (n / 10) _ hd

theorem natRepr_ne_nl (n : Nat) : '\n' ∉ (Nat.repr n).data := by
  show '\n' ∉ (Nat.toDigits 10 n).asString.data
  have : (Nat.toDigits 10 n).asString.data = Nat.toDigits 10 n := rfl
  rw [this]
  exact toDigitsCore_ne_nl (n + 1) n [] (by simp)

theorem stringAppend_data (s t : String) : (s ++ t).data = s.data ++ t.data := by
  cases s
  cases t
  rfl

theorem intToString_ne_nl (i : Int) : '\n' ∉ (toString i).data := by
  show '\n' ∉ (Int.repr i).data
  cases i with
  | ofNat m => exact natRepr_ne_nl m
  | negSucc m =>
    show '\n' ∉ ("-" ++ Nat.repr (m + 1)).data
    rw [stringAppend_data]
    intro hm
    rcases List.mem_append.mp hm with hm | hm
    · simp at hm
    · exact natRepr_ne_nl (m + 1) hm

theorem formatGeminiCitation_ne_nl (idx : Int) (b : Bool) :
    '\n' ∉ (formatGeminiCitation idx b).data := by
  unfold formatGeminiCitation
  split
  · rw [stringAppend_data, stringAppend_data]
    intro hm
    rcases List.mem_append.mp hm with hm | hm
    · rcases List.mem_append.mp hm with hm | hm
      · simp at hm
      · exact intToString_ne_nl idx hm
    · simp at hm
  · simp

theorem citationLineData_ne_nl (opts : Options) (link : CitationLink)
    (hu : '\n' ∉ link.url.data) (hd : '\n' ∉ link.display.data) :
    '\n' ∉ citationLineData opts link := by
  unfold citationLineData
  intro hm
  rcases List.mem_append.mp hm with hm | hm
  · rcases List.mem_append.mp hm with hm | hm
    · rcases List.mem_append.mp hm with hm | hm
      · rcases List.mem_append.mp hm with hm | hm
        · rcases List.mem_append.mp hm with hm | hm
          · exact (by decide : ('\n' ∈ ("=> ").data) = False) ▸ hm
          · exact hu hm
        · simp at hm
      · exact formatGeminiCitation_ne_nl link.index opts.numberedLinks hm
    · simp at hm
  · exact hd hm

theorem citationLineData_isGeminiLine (opts : Options) (link : CitationLink) :
    isGeminiLine (citationLineData opts link) = true := by
  unfold isGeminiLine citationLineData
  rw [List.isPrefixOf_iff_prefix]
  simp only [List.append_assoc]
  exact List.prefix_append _ _

theorem geminiLines_flush_block (opts : Options) :
    ∀ links : List CitationLink,
      (∀ c ∈ links, '\n' ∉ citationLineData opts c) →
      geminiLines ((links.map (fun c => citationLineData opts c ++ ['\n'])).flatten ++ ['\n'])
        = links.map (citationLineData opts) := by
  intro links
  induction links with
  | nil =>
    intro _
    simp only [List.map_nil, List.flatten_nil, List.nil_append]
    decide
  | cons link rest ih =>
    intro h
    have hline : '\n' ∉ citationLineData opts link := h link (List.mem_cons_self _ _)
    simp only [List.map_cons, List.flatten_cons, List.append_assoc, List.singleton_append,
      List.cons_append]
    rw [geminiLines_append_nl]
    rw [geminiLines_single _ hline (citationLineData_isGeminiLine opts link)]
    simp only [List.nil_append]
    rw [ih (fun c hc => h c (List.mem_cons_of_mem _ hc))]
    rfl

theorem flushLoop_eq (opts : Options) (fl : Int) (arr : List CitationLink) :
    ∀ i : Nat,
      flushLoop opts fl i arr
        = ((arr.drop ((fl + 1 - i).toNat)).map (fun c => citationLineData opts c ++ ['\n'])).flatten := by
  induction arr with
  | nil => intro i; simp [flushLoop]
  | cons link rest ih =>
    intro i
    unfold flushLoop
    by_cases h : (i : Int) > fl
    · rw [if_pos h, ih (i + 1)]
      have h1 : (fl + 1 - (i : Int)).toNat = 0 := by omega
      have h2 : (fl + 1 - ((i : Nat) + 1 : Nat) : Int).toNat = 0 := by push_cast; omega
      rw [h1, h2]
      simp
    · rw [if_neg h, ih (i + 1)]
      have h1 : ∃ k : Nat, (fl + 1 - (i : Int)).toNat = k + 1 ∧
          (fl + 1 - ((i : Nat) + 1 : Nat) : Int).toNat = k := by
        refine ⟨(fl - (i : Int)).toNat, by omega, by push_cast; omega⟩
      rcases h1 with ⟨k, hk1, hk2⟩
      rw [hk1, hk2]
      simp

/-- A flush outside a table, written out: the buffer gains the two separator
newlines, the lines of the unflushed tail of the link array, and a trailing
newline; the cursor moves to the end and the paragraph counter resets. -/
theorem forceFlush_inTable (ctx : Ctx) (h : 0 < ctx.acc.tableNestLevel) :
    forceFlushGeminiCitations ctx = ctx := by
  unfold forceFlushGeminiCitations
  rw [if_pos h]

theorem forceFlush_closed_form (ctx : Ctx) (h : ctx.acc.tableNestLevel ≤ 0) :
    forceFlushGeminiCitations ctx
      = { ctx with
          buf := ctx.buf ++ '\n' :: '\n' ::
            (((ctx.acc.linkArray.drop ((ctx.acc.flushedToIndex + 1).toNat)).map
                (fun c => citationLineData ctx.options c ++ ['\n'])).flatten ++ ['\n']),
          acc := { ctx.acc with
                   flushedToIndex := (ctx.acc.linkArray.length : Int) - 1,
                   emitParaCount := 0 } } := by
  unfold forceFlushGeminiCitations
  rw [if_neg (by omega)]
  unfold ResetCitationCounters
  rw [flushLoop_eq ctx.options ctx.acc.flushedToIndex ctx.acc.linkArray 0]
  simp

/-! The invariants maintained by every accumulator touch. -/

def accBounds (ctx : Ctx) : Prop :=
  -1 ≤ ctx.acc.flushedToIndex ∧ ctx.acc.flushedToIndex < (ctx.acc.linkArray.length : Int)

def linesInv (ctx : Ctx) : Prop :=
  (∀ c ∈ ctx.acc.linkArray, '\n' ∉ c.url.data ∧ '\n' ∉ c.display.data) ∧
    geminiLines ctx.buf
      = (ctx.acc.linkArray.take ((ctx.acc.flushedToIndex + 1).toNat)).map
          (citationLineData ctx.options)

theorem forceFlush_options (ctx : Ctx) : (forceFlushGeminiCitations ctx).options = ctx.options := by
  unfold forceFlushGeminiCitations ResetCitationCounters
  split <;> rfl

theorem checkFlush_options (ctx : Ctx) : (CheckFlushCitations ctx).options = ctx.options := by
  unfold CheckFlushCitations FlushCitations emitGeminiCitations
  split
  · split
    · exact forceFlush_options ctx
    · rfl
  · rfl

theorem applyOp_options (ctx : Ctx) (op : AccOp) : (applyOp ctx op).options = ctx.options := by
  cases op with
  | register u d => rfl
  | checkFlush => exact checkFlush_options ctx
  | flushCitations =>
    show (emitGeminiCitations ctx).options = ctx.options
    unfold emitGeminiCitations
    split
    · exact forceFlush_options ctx
    · rfl
  | enterTable => rfl
  | exitTable => rfl

theorem register_acc (opts : Options) (acc : LinkAccumulator) (u d : String) :
    (addGeminiCitation opts acc u d).2.flushedToIndex = acc.flushedToIndex ∧
      (addGeminiCitation opts acc u d).2.tableNestLevel = acc.tableNestLevel ∧
      (acc.linkArray.length ≤ (addGeminiCitation opts acc u d).2.linkArray.length ∧
        (addGeminiCitation opts acc u d).2.linkArray.take acc.linkArray.length
          = acc.linkArray) := by
  unfold addGeminiCitation mkRegisteredCitation
  split
  · exact ⟨rfl, rfl, le_refl _, List.take_length _⟩
  · refine ⟨rfl, rfl, by simp, ?_⟩
    simp

theorem emitGemini_bounds (ctx : Ctx) (h : accBounds ctx) :
    accBounds (emitGeminiCitations ctx) ∧
      ctx.acc.flushedToIndex ≤ (emitGeminiCitations ctx).acc.flushedToIndex := by
  unfold emitGeminiCitations
  split
  · by_cases hn : 0 < ctx.acc.tableNestLevel
    · rw [forceFlush_inTable ctx hn]
      exact ⟨h, le_refl _⟩
    · rw [forceFlush_closed_form ctx (by omega)]
      rcases h with ⟨h1, h2⟩
      unfold accBounds
      refine ⟨⟨?_, ?_⟩, ?_⟩ <;> dsimp <;> omega
  · exact ⟨h, le_refl _⟩

theorem applyOp_bounds (ctx : Ctx) (op : AccOp) (h : accBounds ctx) :
    accBounds (applyOp ctx op) ∧ ctx.acc.flushedToIndex ≤ (applyOp ctx op).acc.flushedToIndex := by
  rcases h with ⟨h1, h2⟩
  cases op with
  | register u d =>
    have := register_acc ctx.options ctx.acc u d
    rcases this with ⟨hf, _, hlen, _⟩
    refine ⟨⟨by simp only [applyOp]; rw [hf]; omega, ?_⟩, by simp only [applyOp]; rw [hf]⟩
    simp only [applyOp]
    rw [hf]
    have : (ctx.acc.linkArray.length : Int) ≤ (addGeminiCitation ctx.options ctx.acc u d).2.linkArray.length := by
      exact_mod_cast hlen
    omega
  | checkFlush =>
    show accBounds (CheckFlushCitations ctx) ∧
        ctx.acc.flushedToIndex ≤ (CheckFlushCitations ctx).acc.flushedToIndex
    unfold CheckFlushCitations
    split
    · exact emitGemini_bounds ctx ⟨h1, h2⟩
    · exact ⟨⟨h1, h2⟩, le_refl _⟩
  | flushCitations =>
    show accBounds (emitGeminiCitations ctx) ∧
        ctx.acc.flushedToIndex ≤ (emitGeminiCitations ctx).acc.flushedToIndex
    exact emitGemini_bounds ctx ⟨h1, h2⟩
  | enterTable => exact ⟨⟨h1, h2⟩, le_refl _⟩
  | exitTable => exact ⟨⟨h1, h2⟩, le_refl _⟩

theorem geminiLines_cons_nl (r : List Char) : geminiLines ('\n' :: r) = geminiLines r := by
  have h := geminiLines_append_nl [] r
  simpa [geminiLines] using h

/-- A flush at nesting depth at most zero turns the buffer's citation lines
into exactly one line per registered citation, in order. -/
theorem forceFlush_lines (ctx : Ctx) (hn : ctx.acc.tableNestLevel ≤ 0)
    (hb : accBounds ctx) (h : linesInv ctx) :
    geminiLines (forceFlushGeminiCitations ctx).buf
        = ctx.acc.linkArray.map (citationLineData ctx.options) ∧
      linesInv (forceFlushGeminiCitations ctx) := by
  rcases h with ⟨hclean, hlines⟩
  rcases hb with ⟨hb1, hb2⟩
  rw [forceFlush_closed_form ctx hn]
  have hdropclean : ∀ c ∈ ctx.acc.linkArray.drop ((ctx.acc.flushedToIndex + 1).toNat),
      '\n' ∉ citationLineData ctx.options c := by
    intro c hc
    have hmem : c ∈ ctx.acc.linkArray := List.mem_of_mem_drop hc
    exact citationLineData_ne_nl ctx.options c (hclean c hmem).1 (hclean c hmem).2
  have hmain : geminiLines (ctx.buf ++ '\n' :: '\n' ::
      (((ctx.acc.linkArray.drop ((ctx.acc.flushedToIndex + 1).toNat)).map
          (fun c => citationLineData ctx.options c ++ ['\n'])).flatten ++ ['\n']))
      = ctx.acc.linkArray.map (citationLineData ctx.options) := by
    rw [geminiLines_append_nl, geminiLines_cons_nl]
    rw [geminiLines_flush_block ctx.options _ hdropclean]
    rw [hlines]
    rw [← List.map_append]
    rw [List.take_append_drop]
  constructor
  · exact hmain
  · constructor
    · exact hclean
    · dsimp only
      rw [hmain]
      have hlen : ((ctx.acc.linkArray.length : Int) - 1 + 1).toNat = ctx.acc.linkArray.length := by
        omega
      rw [hlen, List.take_length]

theorem emitGemini_lines (ctx : Ctx) (hb : accBounds ctx) (h : linesInv ctx) :
    linesInv (emitGeminiCitations ctx) := by
  unfold emitGeminiCitations
  split
  · by_cases hn : 0 < ctx.acc.tableNestLevel
    · rw [forceFlush_inTable ctx hn]
      exact h
    · exact (forceFlush_lines ctx (by omega) hb h).2
  · exact h

theorem applyOp_lines (ctx : Ctx) (op : AccOp) (hb : accBounds ctx) (hc : cleanOp op)
    (h : linesInv ctx) : linesInv (applyOp ctx op) := by
  obtain ⟨hb1, hb2⟩ := hb
  cases op with
  | register u d =>
    rcases h with ⟨hclean, hlines⟩
    show linesInv { ctx with acc := (addGeminiCitation ctx.options ctx.acc u d).2 }
    obtain ⟨hf, -, -, -⟩ := register_acc ctx.options ctx.acc u d
    unfold linesInv
    dsimp only
    rw [hf]
    constructor
    · show ∀ c ∈ (addGeminiCitation ctx.options ctx.acc u d).2.linkArray, _
      unfold addGeminiCitation mkRegisteredCitation
      split
      · exact hclean
      · intro c hcm
        rcases List.mem_append.mp hcm with hcm | hcm
        · exact hclean c hcm
        · rcases List.mem_singleton.mp hcm with rfl
          exact hc
    · show geminiLines ctx.buf
        = ((addGeminiCitation ctx.options ctx.acc u d).2.linkArray.take
            ((ctx.acc.flushedToIndex + 1).toNat)).map (citationLineData ctx.options)
      unfold addGeminiCitation mkRegisteredCitation
      split
      · exact hlines
      · dsimp only
        rw [List.take_append_of_le_length (by omega)]
        exact hlines
  | checkFlush =>
    show linesInv (CheckFlushCitations ctx)
    unfold CheckFlushCitations
    split
    · exact emitGemini_lines ctx ⟨hb1, hb2⟩ h
    · exact h
  | flushCitations => exact emitGemini_lines ctx ⟨hb1, hb2⟩ h
  | enterTable => exact h
  | exitTable => exact h

theorem runOps_bounds (ops : List AccOp) :
    ∀ ctx : Ctx, accBounds ctx →
      accBounds (runOps ctx ops) ∧ ctx.acc.flushedToIndex ≤ (runOps ctx ops).acc.flushedToIndex := by
  induction ops with
  | nil => intro ctx h; exact ⟨h, le_refl _⟩
  | cons op rest ih =>
    intro ctx h
    have h1 := applyOp_bounds ctx op h
    have h2 := ih (applyOp ctx op) h1.1
    exact ⟨h2.1, le_trans h1.2 h2.2⟩

theorem runOps_lines (ops : List AccOp) :
    ∀ ctx : Ctx, accBounds ctx → linesInv ctx → (∀ op ∈ ops, cleanOp op) →
      linesInv (runOps ctx ops) := by
  induction ops with
  | nil => intro ctx _ h _; exact h
  | cons op rest ih =>
    intro ctx hb h hcl
    exact ih (applyOp ctx op) (applyOp_bounds ctx op hb).1
      (applyOp_lines ctx op hb (hcl op (List.mem_cons_self _ _)) h)
      (fun o ho => hcl o (List.mem_cons_of_mem _ ho))

theorem runOps_options (ops : List AccOp) :
    ∀ ctx : Ctx, (runOps ctx ops).options = ctx.options := by
  induction ops with
  | nil => intro ctx; rfl
  | cons op rest ih =>
    intro ctx
    show (runOps (applyOp ctx op) rest).options = ctx.options
    rw [ih (applyOp ctx op), applyOp_options]

theorem runOps_take_mono (ops : List AccOp) (c0 : Ctx) (hb : accBounds c0) (n : Nat) :
    (runOps c0 (ops.take n)).acc.flushedToIndex
      ≤ (runOps c0 (ops.take (n + 1))).acc.flushedToIndex := by
  by_cases h : n < ops.length
  · rw [List.take_succ]
    have hg : ops[n]? = some ops[n] := List.getElem?_eq_getElem h
    rw [hg]
    show _ ≤ (List.foldl applyOp c0 (ops.take n ++ [ops[n]])).acc.flushedToIndex
    rw [List.foldl_append]
    exact (applyOp_bounds (runOps c0 (ops.take n)) _ (runOps_bounds (ops.take n) c0 hb).1).2
  · rw [List.take_of_length_le (by omega), List.take_of_length_le (by omega)]

theorem freshCtx_bounds (opts : Options) : accBounds (freshCtx opts) := by
  unfold accBounds freshCtx newLinkAccumulator
  dsimp
  omega

theorem freshCtx_lines (opts : Options) : linesInv (freshCtx opts) := by
  constructor
  · intro c hc
    simp [freshCtx, newLinkAccumulator] at hc
  · rfl

/-- Claim C4: across a full render, `flushedToIndex` never decreases (each
accumulator touch, including every flush, only moves it forward), and after
the final unconditional flush the citation lines written by the flush
machinery list every registered citation exactly once, in registration order
— none omitted, none repeated: the list of `"=> "` lines of the buffer equals
the one-line-per-record image of the link array. -/
theorem c4_flush_cursor_and_completeness (opts : Options) (ops : List AccOp)
    (hclean : ∀ op ∈ ops, cleanOp op)
    (hend : (runOps (freshCtx opts) ops).acc.tableNestLevel = 0) :
    (∀ n : Nat, (runOps (freshCtx opts) (ops.take n)).acc.flushedToIndex
        ≤ (runOps (freshCtx opts) (ops.take (n + 1))).acc.flushedToIndex) ∧
      (runOps (freshCtx opts) ops).acc.flushedToIndex
        ≤ (forceFlushGeminiCitations (runOps (freshCtx opts) ops)).acc.flushedToIndex ∧
      geminiLines (forceFlushGeminiCitations (runOps (freshCtx opts) ops)).buf
        = ((runOps (freshCtx opts) ops).acc.linkArray).map (citationLineData opts) := by
  have hb := runOps_bounds ops (freshCtx opts) (freshCtx_bounds opts)
  have hl := runOps_lines ops (freshCtx opts) (freshCtx_bounds opts) (freshCtx_lines opts) hclean
  refine ⟨fun n => runOps_take_mono ops (freshCtx opts) (freshCtx_bounds opts) n, ?_, ?_⟩
  · rw [forceFlush_closed_form _ (by omega)]
    dsimp
    rcases hb.1 with ⟨_, h2⟩
    omega
  · have := (forceFlush_lines (runOps (freshCtx opts) ops) (by omega) hb.1 hl).1
    rw [this, runOps_options]
    rfl

/-- Witness for C4 on a concrete op sequence: two registrations around a
paragraph-boundary check and a heading flush, inside and outside a table. -/
theorem c4_flush_cursor_and_completeness_witness :
    geminiLines (forceFlushGeminiCitations
        (runOps (freshCtx newOptions)
          [.register "u" "one", .checkFlush, .enterTable, .register "v" "two",
           .flushCitations, .exitTable, .register "w" "three"])).buf
      = ((runOps (freshCtx newOptions)
          [.register "u" "one", .checkFlush, .enterTable, .register "v" "two",
           .flushCitations, .exitTable, .register "w" "three"]).acc.linkArray).map
          (citationLineData newOptions) :=
  (c4_flush_cursor_and_completeness newOptions
    [.register "u" "one", .checkFlush, .enterTable, .register "v" "two",
     .flushCitations, .exitTable, .register "w" "three"]
    (by intro op hop; fin_cases hop <;> first | exact ⟨by decide, by decide⟩ | trivial)
    (by decide)).2.2


/-! ## Lemmas on the normalization pipeline (used by claim C8) -/

theorem mNlRun_single (c : Char) : mNlRun [c] = none := by
  unfold mNlRun
  split
  · rename_i heq; simp at heq
  · rfl

theorem mNlRun_eq_none (c : Char) (rest : List Char) (h : c ≠ '\n') :
    mNlRun (c :: rest) = none := by
  unfold mNlRun
  split
  · rename_i heq
    injection heq with h1 _
    exact absurd h1 h
  · rfl

theorem mNlRun_eq_none2 (c2 : Char) (rest : List Char) (h : c2 ≠ '\n') :
    mNlRun ('\n' :: c2 :: rest) = none := by
  unfold mNlRun
  split
  · rename_i heq
    injection heq with _ h2
    injection h2 with h2 _
    exact absurd h2 h
  · rfl

theorem scanRepl_nil (m : List Char → Option Nat) (r : List Char) (fuel : Nat) :
    scanRepl m r fuel [] = [] := by
  cases fuel <;> rfl

theorem scanRepl_mNlRun_head (fuel : Nat) (x : Char) (rest : List Char) (hx : x ≠ '\n') :
    (scanRepl mNlRun "\n\n".data (fuel + 1) (x :: rest)).head? = some x := by
  simp [scanRepl, mNlRun_eq_none x rest hx]

theorem head_dropWhile_false (p : Char → Bool) :
    ∀ (l : List Char) (x : Char), (l.dropWhile p).head? = some x → p x = false := by
  intro l
  induction l with
  | nil => intro x h; simp [List.dropWhile] at h
  | cons c rest ih =>
    intro x h
    rw [List.dropWhile_cons] at h
    by_cases hc : p c
    · rw [if_pos hc] at h; exact ih x h
    · rw [if_neg hc] at h
      simp at h
      rw [← h]
      exact Bool.eq_false_iff.mpr hc

theorem drop_countWhile (p : Char → Bool) :
    ∀ l : List Char, l.drop (countWhile p l) = l.dropWhile p := by
  intro l
  induction l with
  | nil => rfl
  | cons c t ih =>
    by_cases hc : p c
    · simp [countWhile, List.takeWhile_cons, hc, List.dropWhile_cons] at ih ⊢
      exact ih
    · simp [countWhile, List.takeWhile_cons, hc, List.dropWhile_cons]

theorem noTriple_cons_intro (c : Char) (l : List Char) (h : noTriple l = true)
    (h2 : l.head? = some '\n' → (l.drop 1).head? = some '\n' → c ≠ '\n') :
    noTriple (c :: l) = true := by
  cases l with
  | nil => rfl
  | cons c2 l2 =>
    cases l2 with
    | nil => rfl
    | cons c3 l3 =>
      show (if c = '\n' ∧ c2 = '\n' ∧ c3 = '\n' then false else noTriple (c2 :: c3 :: l3)) = true
      rw [if_neg ?hneg]
      · exact h
      case hneg =>
        intro hand
        exact h2 (by simp [hand.2.1]) (by simp [hand.2.2]) hand.1

theorem noTriple_tail (c : Char) (l : List Char) (h : noTriple (c :: l) = true) :
    noTriple l = true := by
  cases l with
  | nil => rfl
  | cons c2 l2 =>
    cases l2 with
    | nil => rfl
    | cons c3 l3 =>
      have h' : (if c = '\n' ∧ c2 = '\n' ∧ c3 = '\n' then false
          else noTriple (c2 :: c3 :: l3)) = true := h
      by_cases hand : c = '\n' ∧ c2 = '\n' ∧ c3 = '\n'
      · rw [if_pos hand] at h'; exact absurd h' (by decide)
      · rw [if_neg hand] at h'; exact h'

theorem noTriple_append_right : ∀ (a b : List Char),
    noTriple (a ++ b) = true → noTriple b = true := by
  intro a
  induction a with
  | nil => intro b h; exact h
  | cons c a2 ih => intro b h; exact ih b (noTriple_tail c (a2 ++ b) h)

theorem noTriple_append_left : ∀ (p b : List Char),
    noTriple (p ++ b) = true → noTriple p = true := by
  intro p
  induction p with
  | nil => intro b _; rfl
  | cons c p2 ih =>
    intro b h
    cases p2 with
    | nil => rfl
    | cons c2 p3 =>
      cases p3 with
      | nil => rfl
      | cons c3 p4 =>
        show (if c = '\n' ∧ c2 = '\n' ∧ c3 = '\n' then false
            else noTriple (c2 :: c3 :: p4)) = true
        have h' : (if c = '\n' ∧ c2 = '\n' ∧ c3 = '\n' then false
            else noTriple (c2 :: c3 :: (p4 ++ b))) = true := h
        by_cases hand : c = '\n' ∧ c2 = '\n' ∧ c3 = '\n'
        · rw [if_pos hand] at h'; exact absurd h' (by decide)
        · rw [if_neg hand] at h'
          rw [if_neg hand]
          exact ih b h'

theorem noTriple_scanRepl : ∀ (fuel : Nat) (l : List Char), l.length ≤ fuel →
    noTriple (scanRepl mNlRun "\n\n".data fuel l) = true := by
  intro fuel
  induction fuel with
  | zero =>
    intro l h
    have hl : l = [] := List.eq_nil_of_length_eq_zero (Nat.le_zero.mp h)
    subst hl
    rfl
  | succ f ih =>
    intro l h
    cases l with
    | nil => rw [scanRepl_nil]; rfl
    | cons c rest =>
      cases rest with
      | nil =>
        have hstep : scanRepl mNlRun "\n\n".data (f + 1) [c] =
            c :: scanRepl mNlRun "\n\n".data f [] := by
          simp [scanRepl, mNlRun_single]
        rw [hstep, scanRepl_nil]
        rfl
      | cons c2 rest2 =>
        by_cases hc : c = '\n'
        · subst hc
          by_cases hc2 : c2 = '\n'
          · subst hc2
            have hstep : scanRepl mNlRun "\n\n".data (f + 1) ('\n' :: '\n' :: rest2) =
                "\n\n".data ++ scanRepl mNlRun "\n\n".data f
                  (('\n' :: '\n' :: rest2).drop
                    (2 + countWhile (fun x => x = '\n') rest2)) := rfl
            have hdrop : ('\n' :: '\n' :: rest2).drop
                (2 + countWhile (fun x => x = '\n') rest2) =
                rest2.drop (countWhile (fun x => x = '\n') rest2) := by
              rw [show 2 + countWhile (fun x => x = '\n') rest2 =
                  countWhile (fun x => x = '\n') rest2 + 1 + 1 from by omega]
              rfl
            rw [hstep, hdrop]
            rw [show ("\n\n".data : List Char) = ['\n', '\n'] from rfl]
            rw [List.cons_append, List.cons_append, List.nil_append]
            have hlen : (rest2.drop (countWhile (fun x => x = '\n') rest2)).length ≤ f := by
              have h' : rest2.length + 2 ≤ f + 1 := by simpa using h
              have h2 := List.length_drop (countWhile (fun x => x = '\n') rest2) rest2
              omega
            have hZ : noTriple (scanRepl mNlRun "\n\n".data f
                (rest2.drop (countWhile (fun x => x = '\n') rest2))) = true := ih _ hlen
            have hZhead : ∀ y, (scanRepl mNlRun "\n\n".data f
                (rest2.drop (countWhile (fun x => x = '\n') rest2))).head? = some y →
                y ≠ '\n' := by
              intro y hy
              cases hD : rest2.drop (countWhile (fun x => x = '\n') rest2) with
              | nil =>
                rw [hD, scanRepl_nil] at hy
                simp at hy
              | cons d D2 =>
                have hdw : (rest2.dropWhile (fun x => x = '\n')).head? = some d := by
                  rw [← drop_countWhile, hD]; rfl
                have hdf := head_dropWhile_false _ rest2 d hdw
                have hd : d ≠ '\n' := by simpa using hdf
                have hlen2 : D2.length + 1 ≤ f := by
                  rw [hD] at hlen; simpa using hlen
                obtain ⟨f2, rfl⟩ : ∃ f2, f = f2 + 1 := ⟨f - 1, by omega⟩
                rw [hD, scanRepl_mNlRun_head f2 d D2 hd] at hy
                injection hy with hy
                rw [← hy]
                exact hd
            apply noTriple_cons_intro
            · apply noTriple_cons_intro
              · exact hZ
              · intro hh _
                exact absurd rfl (hZhead '\n' hh)
            · intro _ hh2
              exact absurd rfl (hZhead '\n' hh2)
          · have hstep : scanRepl mNlRun "\n\n".data (f + 1) ('\n' :: c2 :: rest2) =
                '\n' :: scanRepl mNlRun "\n\n".data f (c2 :: rest2) := by
              simp [scanRepl, mNlRun_eq_none2 c2 rest2 hc2]
            rw [hstep]
            have hlen : (c2 :: rest2).length ≤ f := by
              have h' : rest2.length + 2 ≤ f + 1 := by simpa using h
              simp
              omega
            apply noTriple_cons_intro _ _ (ih _ hlen)
            intro hh _
            have hlen' : rest2.length + 1 ≤ f := by simpa using hlen
            obtain ⟨f2, rfl⟩ : ∃ f2, f = f2 + 1 := ⟨f - 1, by omega⟩
            rw [scanRepl_mNlRun_head f2 c2 rest2 hc2] at hh
            injection hh with hh
            exact absurd hh hc2
        · have hstep : scanRepl mNlRun "\n\n".data (f + 1) (c :: c2 :: rest2) =
              c :: scanRepl mNlRun "\n\n".data f (c2 :: rest2) := by
            simp [scanRepl, mNlRun_eq_none c (c2 :: rest2) hc]
          rw [hstep]
          have hlen : (c2 :: rest2).length ≤ f := by
            have h' : rest2.length + 2 ≤ f + 1 := by simpa using h
            simp
            omega
          exact noTriple_cons_intro _ _ (ih _ hlen) (fun _ _ => hc)

theorem noTriple_replaceAllList (l : List Char) :
    noTriple (replaceAllList mNlRun "\n\n".data l) = true :=
  noTriple_scanRepl l.length l (Nat.le_refl _)

theorem noTriple_goTrimSpaceList (l : List Char) (h : noTriple l = true) :
    noTriple (goTrimSpaceList l) = true := by
  have h1 : l.takeWhile goIsSpace ++ l.dropWhile goIsSpace = l :=
    List.takeWhile_append_dropWhile goIsSpace l
  have hd1 : noTriple (l.dropWhile goIsSpace) = true :=
    noTriple_append_right _ _ (by rw [h1]; exact h)
  have h2 : (l.dropWhile goIsSpace).reverse.takeWhile goIsSpace ++
      (l.dropWhile goIsSpace).reverse.dropWhile goIsSpace =
      (l.dropWhile goIsSpace).reverse :=
    List.takeWhile_append_dropWhile goIsSpace (l.dropWhile goIsSpace).reverse
  have h3 : ((l.dropWhile goIsSpace).reverse.dropWhile goIsSpace).reverse ++
      ((l.dropWhile goIsSpace).reverse.takeWhile goIsSpace).reverse =
      l.dropWhile goIsSpace := by
    have h4 := congrArg List.reverse h2
    rwa [List.reverse_append, List.reverse_reverse] at h4
  show noTriple (((l.dropWhile goIsSpace).reverse.dropWhile goIsSpace).reverse) = true
  exact noTriple_append_left _ _ (by rw [h3]; exact hd1)

theorem listTrimmed_goTrimSpaceList (l : List Char) :
    listTrimmed (goTrimSpaceList l) = true := by
  have hres : goTrimSpaceList l =
      ((l.dropWhile goIsSpace).reverse.dropWhile goIsSpace).reverse := rfl
  rw [hres]
  unfold listTrimmed
  rw [Bool.and_eq_true]
  constructor
  · rw [List.head?_reverse]
    cases hx : ((l.dropWhile goIsSpace).reverse.dropWhile goIsSpace).getLast? with
    | none => rfl
    | some x =>
      have hne : (l.dropWhile goIsSpace).reverse.dropWhile goIsSpace ≠ [] := by
        intro h0; rw [h0] at hx; simp at hx
      have h5 : (l.dropWhile goIsSpace).reverse.takeWhile goIsSpace ++
          (l.dropWhile goIsSpace).reverse.dropWhile goIsSpace =
          (l.dropWhile goIsSpace).reverse :=
        List.takeWhile_append_dropWhile goIsSpace (l.dropWhile goIsSpace).reverse
      have h6 : (l.dropWhile goIsSpace).reverse.getLast? = some x := by
        rw [← h5, List.getLast?_append_of_ne_nil _ hne]
        exact hx
      rw [List.getLast?_reverse] at h6
      have h7 := head_dropWhile_false goIsSpace l x h6
      simp [h7]
  · rw [List.getLast?_reverse]
    cases hx : ((l.dropWhile goIsSpace).reverse.dropWhile goIsSpace).head? with
    | none => rfl
    | some x =>
      have h7 := head_dropWhile_false goIsSpace (l.dropWhile goIsSpace).reverse x hx
      simp [h7]

/-! ## Unfolding equations for the public entry points -/

theorem FromHTMLNode1_eq (doc : HNode) (opts : Options) (acc : LinkAccumulator) :
    FromHTMLNode1 doc opts acc =
      (String.mk (normalize1 (forceFlushGeminiCitations
          (traverse1 (sizeN doc) { options := opts, acc := acc } doc)).buf),
        (forceFlushGeminiCitations (traverse1 (sizeN doc) { options := opts, acc := acc } doc)).acc) := rfl

theorem FromHTMLNode2_eq (doc : HNode) (ctx : Ctx) :
    FromHTMLNode2 doc ctx =
      (String.mk (normalize2 (forceFlushGeminiCitations (traverse2 (sizeN doc) ctx doc)).buf),
        forceFlushGeminiCitations (traverse2 (sizeN doc) ctx doc)) := rfl

/-! ## Claim C1: the package-global accumulator leaks across render calls -/

theorem c1_size : sizeN c1doc = 4 := by decide

theorem c1_step_first :
    traverse1 4 { options := newOptions, acc := newLinkAccumulator } c1doc =
      { buf := " L [1]".data, lineLength := 6, options := newOptions,
        acc := { linkArray := [{ index := 1, url := "u", display := "L" }],
                 flushedToIndex := -1 } } := by decide

theorem c1_flush_first :
    forceFlushGeminiCitations
        { buf := " L [1]".data, lineLength := 6, options := newOptions,
          acc := { linkArray := [{ index := 1, url := "u", display := "L" }],
                   flushedToIndex := -1 } } =
      { buf := " L [1]\n\n=> u [1] L\n\n".data, lineLength := 6, options := newOptions,
        acc := c1acc } := by decide

theorem c1_step_second :
    traverse1 4 { options := newOptions, acc := c1acc } c1doc =
      { buf := " L [2]".data, lineLength := 6, options := newOptions,
        acc := { linkArray := [{ index := 1, url := "u", display := "L" },
                               { index := 2, url := "u", display := "L" }],
                 flushedToIndex := 0 } } := by decide

theorem c1_flush_second :
    forceFlushGeminiCitations
        { buf := " L [2]".data, lineLength := 6, options := newOptions,
          acc := { linkArray := [{ index := 1, url := "u", display := "L" },
                                 { index := 2, url := "u", display := "L" }],
                   flushedToIndex := 0 } } =
      { buf := " L [2]\n\n=> u [2] L\n\n".data, lineLength := 6, options := newOptions,
        acc := { linkArray := [{ index := 1, url := "u", display := "L" },
                               { index := 2, url := "u", display := "L" }],
                 flushedToIndex := 1 } } := by decide

/-- C1 (code bug): the spec says rendering is a pure deterministic function
of (tree, options) — two successive `FromHTMLNode` calls on the same tree
with the same options return identical strings because no citation state
carries over between calls.  The code refutes this: the citation accumulator
is a package-global that `FromHTMLNode` never resets (the embedding threads
that global through `FromHTMLNode1` explicitly), so after a first render of
`<a href="u">L</a>` has registered citation [1], a second identical call
numbers the same link [2] and returns a different string. -/
theorem c1_global_accumulator_leaks :
    (FromHTMLNode1 c1doc newOptions newLinkAccumulator).1 = "L [1]\n\n=> u [1] L" ∧
    (FromHTMLNode1 c1doc newOptions
        (FromHTMLNode1 c1doc newOptions newLinkAccumulator).2).1 = "L [2]\n\n=> u [2] L" ∧
    (FromHTMLNode1 c1doc newOptions newLinkAccumulator).1 ≠
      (FromHTMLNode1 c1doc newOptions
        (FromHTMLNode1 c1doc newOptions newLinkAccumulator).2).1 := by
  have h1 : FromHTMLNode1 c1doc newOptions newLinkAccumulator =
      ("L [1]\n\n=> u [1] L", c1acc) := by
    rw [FromHTMLNode1_eq, c1_size, c1_step_first, c1_flush_first]
    decide
  have h2 : FromHTMLNode1 c1doc newOptions c1acc =
      ("L [2]\n\n=> u [2] L",
        { emitParaCount := 0,
          linkArray := [{ index := 1, url := "u", display := "L" },
                        { index := 2, url := "u", display := "L" }],
          flushedToIndex := 1, tableNestLevel := 0 }) := by
    rw [FromHTMLNode1_eq, c1_size, c1_step_second, c1_flush_second]
    decide
  have ha : (FromHTMLNode1 c1doc newOptions newLinkAccumulator).2 = c1acc := by rw [h1]
  have e1 : (FromHTMLNode1 c1doc newOptions newLinkAccumulator).1 =
      "L [1]\n\n=> u [1] L" := by rw [h1]
  have e2 : (FromHTMLNode1 c1doc newOptions
      (FromHTMLNode1 c1doc newOptions newLinkAccumulator).2).1 =
      "L [2]\n\n=> u [2] L" := by rw [ha, h2]
  exact ⟨e1, e2, by rw [e1, e2]; decide⟩

/-! ## Claims C7 and C8: preformatted blocks and the final normalization -/

/-- The context right after a preformatted block's opening fence has been
emitted into a fresh default-options context. -/
def preP1 : Ctx :=
  { buf := " ```\n".data, endsWithSpace := true, options := newOptions,
    acc := newLinkAccumulator }

theorem pre_e1 :
    emit { ({ options := newOptions, acc := newLinkAccumulator } : Ctx) with
      justClosedDiv := false } "```\n" = preP1 := by decide

theorem c7_size : sizeN c7doc = 4 := by decide

theorem c7_unfold :
    traverse1 4 { options := newOptions, acc := newLinkAccumulator } c7doc =
      emit { traverseChildren1 3
          { emit { ({ options := newOptions, acc := newLinkAccumulator } : Ctx) with
              justClosedDiv := false } "```\n" with
            isPre := true } [.text "a\n  b"] with
        isPre := false } "\n```" := rfl

/-- The context after the raw text of `<pre>a\n  b</pre>` has been written
verbatim. -/
def c7P2 : Ctx :=
  { buf := " ```\na\n  b".data, lineLength := 3, isPre := true, options := newOptions,
    acc := newLinkAccumulator }

theorem c7_tc :
    traverseChildren1 3 { preP1 with isPre := true } [.text "a\n  b"] = c7P2 := by decide

theorem c7_e3 :
    emit { c7P2 with isPre := false } "\n```" =
      { buf := " ```\na\n  b\n```".data, lineLength := 3, options := newOptions,
        acc := newLinkAccumulator } := by decide

theorem c7_step :
    traverse1 4 { options := newOptions, acc := newLinkAccumulator } c7doc =
      { buf := " ```\na\n  b\n```".data, lineLength := 3, options := newOptions,
        acc := newLinkAccumulator } := by
  rw [c7_unfold, pre_e1, c7_tc]
  exact c7_e3

theorem c7_flush :
    forceFlushGeminiCitations
        { buf := " ```\na\n  b\n```".data, lineLength := 3, options := newOptions,
          acc := newLinkAccumulator } =
      { buf := " ```\na\n  b\n```\n\n\n".data, lineLength := 3, options := newOptions,
        acc := newLinkAccumulator } := by decide

/-- C7 (corrected): inside a preformatted block the traversal emits raw node
text verbatim — no whitespace collapsing at emit time (first conjunct,
stated for every context whose pre flag is set and any non-zero step
budget) — and the block is wrapped in fence markers; but the end-of-render
normalization of `FromHTMLNode` replaces the literal `"\n "` by `"\n"` in a
single pass, which removes one space after every newline:
`<pre>a\n  b</pre>` renders as "```\na\n b\n```", keeping only one of the
second line's two leading spaces.  The claim that the internal whitespace
survives the final normalization untouched is wrong. -/
theorem c7_pre_verbatim :
    (∀ (fuel : Nat) (ctx : Ctx) (d : String), ctx.isPre = true →
      traverse1 (fuel + 1) ctx (.text d) = emit ctx d) ∧
    (FromHTMLNode1 c7doc newOptions newLinkAccumulator).1 = "```\na\n b\n```" := by
  constructor
  · intro fuel ctx d hpre
    show emit ctx (if ctx.isPre then d else goTrimSpace (replaceAll mSpacing " " d)) =
      emit ctx d
    simp [hpre]
  · have h1 : FromHTMLNode1 c7doc newOptions newLinkAccumulator =
        ("```\na\n b\n```", newLinkAccumulator) := by
      rw [FromHTMLNode1_eq, c7_size, c7_step, c7_flush]
      decide
    rw [h1]

theorem c7_pre_verbatim_witness :
    traverse1 1 { options := newOptions, isPre := true } (.text "a\n  b") =
      emit { options := newOptions, isPre := true } "a\n  b" :=
  c7_pre_verbatim.1 0 { options := newOptions, isPre := true } "a\n  b" rfl

/-- C7 counterexample: the rendered string for `<pre>a\n  b</pre>` no longer
contains the source's `"\n  "` run (the final normalization ate one of the
two spaces), so the internal whitespace is not preserved exactly. -/
theorem c7_counterexample :
    containsSeq "\n  ".data "a\n  b".data = true ∧
    containsSeq "\n  ".data (FromHTMLNode1 c7doc newOptions newLinkAccumulator).1.data =
      false := by
  have h1 : FromHTMLNode1 c7doc newOptions newLinkAccumulator =
      ("```\na\n b\n```", newLinkAccumulator) := by
    rw [FromHTMLNode1_eq, c7_size, c7_step, c7_flush]
    decide
  exact ⟨by decide, by rw [h1]; decide⟩

theorem c8_size : sizeN c8doc = 4 := by decide

theorem c8_unfold :
    traverse1 4 { options := newOptions, acc := newLinkAccumulator } c8doc =
      emit { traverseChildren1 3
          { emit { ({ options := newOptions, acc := newLinkAccumulator } : Ctx) with
              justClosedDiv := false } "```\n" with
            isPre := true } [.text "a \nb"] with
        isPre := false } "\n```" := rfl

/-- The context after the raw text of `<pre>a \nb</pre>` has been written
verbatim. -/
def c8P2 : Ctx :=
  { buf := " ```\na \nb".data, lineLength := 1, isPre := true, options := newOptions,
    acc := newLinkAccumulator }

theorem c8_tc :
    traverseChildren1 3 { preP1 with isPre := true } [.text "a \nb"] = c8P2 := by decide

theorem c8_e3 :
    emit { c8P2 with isPre := false } "\n```" =
      { buf := " ```\na \nb\n```".data, lineLength := 3, options := newOptions,
        acc := newLinkAccumulator } := by decide

theorem c8_step :
    traverse1 4 { options := newOptions, acc := newLinkAccumulator } c8doc =
      { buf := " ```\na \nb\n```".data, lineLength := 3, options := newOptions,
        acc := newLinkAccumulator } := by
  rw [c8_unfold, pre_e1, c8_tc]
  exact c8_e3

theorem c8_flush :
    forceFlushGeminiCitations
        { buf := " ```\na \nb\n```".data, lineLength := 3, options := newOptions,
          acc := newLinkAccumulator } =
      { buf := " ```\na \nb\n```\n\n\n".data, lineLength := 3, options := newOptions,
        acc := newLinkAccumulator } := by decide

/-- C8 (corrected): for every document, options and starting accumulator the
string `FromHTMLNode1` returns has no leading or trailing whitespace and no
run of three or more consecutive newlines.  The third claimed postcondition
is wrong: the final normalization removes a space immediately AFTER a
newline (Go `strings.Replace(text, "\n ", "\n", -1)`), not before one, so a
space immediately before a newline survives to the returned string (see the
counterexample). -/
theorem c8_normalization (doc : HNode) (opts : Options) (acc : LinkAccumulator) :
    noTriple (FromHTMLNode1 doc opts acc).1.data = true ∧
    listTrimmed (FromHTMLNode1 doc opts acc).1.data = true := by
  have hd : (FromHTMLNode1 doc opts acc).1.data =
      normalize1 (forceFlushGeminiCitations
        (traverse1 (sizeN doc) { options := opts, acc := acc } doc)).buf := by
    simp only [FromHTMLNode1]
  constructor
  · rw [hd]
    unfold normalize1
    exact noTriple_goTrimSpaceList _ (noTriple_replaceAllList _)
  · rw [hd]
    unfold normalize1
    exact listTrimmed_goTrimSpaceList _

/-- C8 counterexample: rendering `<pre>a \nb</pre>` returns "```\na \nb\n```",
which still contains a space immediately before a newline — the claimed
postcondition that stray space-before-newline sequences are removed is false
(the code removes a space after a newline instead). -/
theorem c8_counterexample :
    (FromHTMLNode1 c8doc newOptions newLinkAccumulator).1 = "```\na \nb\n```" ∧
    containsSeq " \n".data (FromHTMLNode1 c8doc newOptions newLinkAccumulator).1.data =
      true := by
  have h1 : FromHTMLNode1 c8doc newOptions newLinkAccumulator =
      ("```\na \nb\n```", newLinkAccumulator) := by
    rw [FromHTMLNode1_eq, c8_size, c8_step, c8_flush]
    decide
  exact ⟨by rw [h1], by rw [h1]; decide⟩

/-! ## Claim C2: the peek-ahead single-link path of the second variant -/

theorem c2_size : sizeN c2doc = 7 := by decide

theorem c2_step :
    traverse2 7 (NewTraverseContext newOptions) c2doc =
      { buf := " => x  short\n".data, endsWithSpace := true, options := newOptions,
        acc := { flushedToIndex := -1 } } := by decide

theorem c2_flush :
    forceFlushGeminiCitations
        { buf := " => x  short\n".data, endsWithSpace := true, options := newOptions,
          acc := { flushedToIndex := -1 } } =
      { buf := " => x  short\n\n\n\n".data, endsWithSpace := true, options := newOptions,
        acc := { flushedToIndex := -1 } } := by decide

/-- C2 (corrected): for `<p><a href="x">short</a></p>` the peek-ahead path
emits a single gemini link line instead of a paragraph, and the scratch
render registers nothing in the live accumulator (the emitted line goes
through `emit`, which never touches the accumulator — last conjunct).  But
the emitted line is "=> x  short" with TWO spaces between url and text (the
scratch buffer starts with emit's separator space), and the live flush index
does not advance at all — the citation lives only in the discarded scratch
context — rather than advancing by exactly one. -/
theorem c2_peek_ahead_single_link :
    (FromHTMLNode2 c2doc (NewTraverseContext newOptions)).1 = "=> x  short" ∧
    (FromHTMLNode2 c2doc (NewTraverseContext newOptions)).2.acc.linkArray = [] ∧
    (FromHTMLNode2 c2doc (NewTraverseContext newOptions)).2.acc.flushedToIndex =
      (NewTraverseContext newOptions).acc.flushedToIndex ∧
    ∀ (ctx : Ctx) (s : String), (emit2 ctx s).acc = ctx.acc := by
  have h1 : FromHTMLNode2 c2doc (NewTraverseContext newOptions) =
      ("=> x  short",
        { buf := " => x  short\n\n\n\n".data, endsWithSpace := true,
          options := newOptions, acc := { flushedToIndex := -1 } }) := by
    rw [FromHTMLNode2_eq, c2_size, c2_step, c2_flush]
    decide
  exact ⟨by rw [h1], by rw [h1], by rw [h1]; decide, fun ctx s => emit2_acc ctx s⟩

/-- C2 counterexample: the emitted link line carries two spaces between the
url and the text rather than the claimed single space, and the live flush
index stays at -1 instead of advancing by one. -/
theorem c2_counterexample :
    (FromHTMLNode2 c2doc (NewTraverseContext newOptions)).1 ≠ "=> x short" ∧
    (FromHTMLNode2 c2doc (NewTraverseContext newOptions)).2.acc.flushedToIndex ≠
      (NewTraverseContext newOptions).acc.flushedToIndex + 1 := by
  have h1 : FromHTMLNode2 c2doc (NewTraverseContext newOptions) =
      ("=> x  short",
        { buf := " => x  short\n\n\n\n".data, endsWithSpace := true,
          options := newOptions, acc := { flushedToIndex := -1 } }) := by
    rw [FromHTMLNode2_eq, c2_size, c2_step, c2_flush]
    decide
  exact ⟨by rw [h1]; decide, by rw [h1]; decide⟩

end HtmlToGemini
